import Mathlib

/-!
# Verification of `up_pyperplan/solver.py` (aiplan4eu/up-pyperplan)

A shallow embedding of the translation bridge in `up_pyperplan/solver.py`:
the conversion of a typed, lifted planning problem (the `unified_planning`
host model) into the representation of the external `pyperplan` library,
together with the reconstruction of typed plans from ground action
identifier strings.

External collaborators (`pyperplan.pddl.pddl` classes, the `unified_planning`
model classes and their accessors, the grounder and the search engine) are
modelled at their interface boundary, exactly as far as `solver.py` consumes
them.  Python exceptions are modelled with an explicit error type and
`Except`; the mutable `self.pyp_types` dictionary is modelled by explicit
state passing of an association list with Python-`dict` assignment
semantics (overwrite in place, append for a fresh key).
-/

namespace UpPyperplan

/-! ## Pyperplan side of the bridge (`pyperplan.pddl.pddl`, interface model)

`Type` from pyperplan holds a name and an optional parent type
(`PyperplanType('object', None)` is how `solver.py` builds the root). -/

inductive PyperplanType where
  | mk (name : String) (father : Option PyperplanType)

def PyperplanType.name : PyperplanType → String
  | .mk n _ => n

def PyperplanType.father : PyperplanType → Option PyperplanType
  | .mk _ f => f

instance : Inhabited PyperplanType := ⟨.mk "object" none⟩

mutual
def PyperplanType.beq : PyperplanType → PyperplanType → Bool
  | .mk n1 f1, .mk n2 f2 => n1 == n2 && PyperplanType.beqOpt f1 f2
def PyperplanType.beqOpt : Option PyperplanType → Option PyperplanType → Bool
  | none, none => true
  | some a, some b => PyperplanType.beq a b
  | _, _ => false
end

theorem pyperplanTypeBeq_iff : ∀ a b : PyperplanType, (PyperplanType.beq a b = true) ↔ a = b
  | .mk n1 f1, .mk n2 f2 => by
    cases f1 <;> cases f2 <;>
      simp [PyperplanType.beq, PyperplanType.beqOpt, pyperplanTypeBeq_iff]

instance : DecidableEq PyperplanType := fun a b =>
  decidable_of_iff _ (pyperplanTypeBeq_iff a b)

/-- The second component of a signature entry.  `solver.py` is inconsistent:
`_convert_initial_values` stores a bare pyperplan type (line 118) while every
other call site stores a 1-tuple `(type,)`; both shapes are kept apart. -/
inductive SigType where
  | bare (t : PyperplanType)
  | tuple1 (t : PyperplanType)
deriving DecidableEq

/-- `pyperplan.pddl.pddl.Predicate`: a name and a signature, equal iff both
components are equal (the shape the spec's PredicateTemplate describes). -/
structure Predicate where
  name : String
  signature : List (String × SigType)
deriving DecidableEq

/-- `pyperplan.pddl.pddl.Effect`: an add list and a delete list, unordered
collections with duplicates collapsed. -/
structure PypEffect where
  addlist : Finset Predicate
  dellist : Finset Predicate
deriving DecidableEq

/-- `pyperplan.pddl.pddl.Action`: name, signature, precondition, effect. -/
structure PyperplanAction where
  name : String
  signature : List (String × SigType)
  precondition : List Predicate
  effect : PypEffect

/-- `pyperplan.pddl.pddl.Domain`.  The `types` field mirrors line 138 of the
source, `pyperplan_types = [self.pyp_types.values()]`: a one-element list
holding the list of registered type nodes in dictionary order. -/
structure Domain where
  name : String
  types : List (List PyperplanType)
  predicates : List (String × Predicate)
  actions : List (String × PyperplanAction)

/-! ## Host model side (`unified_planning`, interface model) -/

/-- A user type of the host model: a name and an optional father type
(`type.name()` / `type.father()`). -/
inductive UPType where
  | mk (name : String) (father : Option UPType)

def UPType.name : UPType → String
  | .mk n _ => n

def UPType.father : UPType → Option UPType
  | .mk _ f => f

mutual
def UPType.beq : UPType → UPType → Bool
  | .mk n1 f1, .mk n2 f2 => n1 == n2 && UPType.beqOpt f1 f2
def UPType.beqOpt : Option UPType → Option UPType → Bool
  | none, none => true
  | some a, some b => UPType.beq a b
  | _, _ => false
end

theorem upTypeBeq_iff : ∀ a b : UPType, (UPType.beq a b = true) ↔ a = b
  | .mk n1 f1, .mk n2 f2 => by
    cases f1 <;> cases f2 <;>
      simp [UPType.beq, UPType.beqOpt, upTypeBeq_iff]

instance : DecidableEq UPType := fun a b =>
  decidable_of_iff _ (upTypeBeq_iff a b)

/-- A host-model expression node (`FNode`), as a closed variant type covering
exactly the shapes `solver.py` distinguishes through the runtime queries
`is_fluent_exp` / `is_and` / `is_parameter_exp` / `is_object_exp` /
`is_bool_constant`; the remaining constructors stand for the expression
shapes the host model can also produce (negation, disjunction, equality,
numeric constants), which fall through every one of those queries. -/
inductive FNode where
  | fluentExp (fluentName : String) (args : List FNode)
  | andExp (args : List FNode)
  | paramExp (paramName : String) (paramType : UPType)
  | objectExp (objName : String) (objType : UPType)
  | boolConstant (b : Bool)
  | notExp (arg : FNode)
  | orExp (args : List FNode)
  | equalsExp (lhs rhs : FNode)
  | intConstant (v : Int)

namespace FNode

def isFluentExp : FNode → Bool
  | .fluentExp _ _ => true
  | _ => false

def isAnd : FNode → Bool
  | .andExp _ => true
  | _ => false

def isParameterExp : FNode → Bool
  | .paramExp _ _ => true
  | _ => false

def isObjectExp : FNode → Bool
  | .objectExp _ _ => true
  | _ => false

def isBoolConstant : FNode → Bool
  | .boolConstant _ => true
  | _ => false

/-- `x.args()`: the sub-expressions of an expression node. -/
def args : FNode → List FNode
  | .fluentExp _ l => l
  | .andExp l => l
  | .orExp l => l
  | .notExp a => [a]
  | .equalsExp a b => [a, b]
  | _ => []

/-- `x.fluent().name()`: defined when `x` is a fluent application; the host
model raises on any other node, modelled by `none`. -/
def fluentName : FNode → Option String
  | .fluentExp n _ => some n
  | _ => none

/-- `o.object()`: defined when `o` is an object expression (the host model
asserts `is_object_exp`), returning the object's name and type. -/
def object : FNode → Option (String × UPType)
  | .objectExp n t => some (n, t)
  | _ => none

/-- `p.parameter()`: defined when `p` is a parameter expression. -/
def parameter : FNode → Option (String × UPType)
  | .paramExp n t => some (n, t)
  | _ => none

/-- `v.bool_constant_value()`: defined when `v` is a boolean constant (the
host model asserts `is_bool_constant`). -/
def boolConstantValue : FNode → Option Bool
  | .boolConstant b => some b
  | _ => none

end FNode

/- Size of an expression node, used as termination measure for the
work-list traversals of `_convert_goal` and `_convert_action`. -/
mutual
def fsize : FNode → Nat
  | .fluentExp _ l => 1 + fsizeL l
  | .andExp l => 1 + fsizeL l
  | .orExp l => 1 + fsizeL l
  | .notExp a => 1 + fsize a
  | .equalsExp a b => 1 + fsize a + fsize b
  | _ => 1
def fsizeL : List FNode → Nat
  | [] => 0
  | x :: l => fsize x + fsizeL l
end

theorem fsizeL_append (a b : List FNode) : fsizeL (a ++ b) = fsizeL a + fsizeL b := by
  induction a with
  | nil => simp [fsizeL]
  | cons x l ih => simp [fsizeL, ih]; omega

theorem fsizeL_reverse (a : List FNode) : fsizeL a.reverse = fsizeL a := by
  induction a with
  | nil => rfl
  | cons x l ih => simp [fsizeL, List.reverse_cons, fsizeL_append, ih]; omega

/- Rendering of an expression, modelling the host model's printer as it
appears interpolated inside the error message f-strings of `solver.py`. -/
mutual
def fnodeStr : FNode → String
  | .fluentExp n l => n ++ "(" ++ fnodeStrList ", " l ++ ")"
  | .andExp l => "(" ++ fnodeStrList " and " l ++ ")"
  | .paramExp n _ => n
  | .objectExp n _ => n
  | .boolConstant b => if b then "true" else "false"
  | .notExp a => "(not " ++ fnodeStr a ++ ")"
  | .orExp l => "(" ++ fnodeStrList " or " l ++ ")"
  | .equalsExp a b => "(" ++ fnodeStr a ++ " == " ++ fnodeStr b ++ ")"
  | .intConstant v => toString v
def fnodeStrList (sep : String) : List FNode → String
  | [] => ""
  | [x] => fnodeStr x
  | x :: l => fnodeStr x ++ sep ++ fnodeStrList sep l
end

/-- The capability profile of a problem (`problem.kind()`), restricted to the
features `solver.py` consults.  `FLAT_TYPING` / `HIERARCHICAL_TYPING` are the
two features of the declared `supported_kind`. -/
structure ProblemKind where
  hasNegativeConditions : Bool
  hasDisjunctiveConditions : Bool
  hasEquality : Bool
  hasContinuousNumbers : Bool
  hasDiscreteNumbers : Bool
  hasConditionalEffects : Bool
  hasFlatTyping : Bool
  hasHierarchicalTyping : Bool
deriving DecidableEq

/-- A fluent declaration: `f.name()` and `f.signature()` (parameter name and
type per position). -/
structure UPFluent where
  name : String
  signature : List (String × UPType)

/-- One effect of an instantaneous action: `e.fluent()`, `e.value()`,
`e.is_conditional()`. -/
structure UPEffect where
  fluent : FNode
  value : FNode
  isConditional : Bool

/-- An instantaneous action of the host model (the only action shape
`solver.py` supports; line 151 asserts `isinstance(action,
up.model.InstantaneousAction)`). -/
structure UPAction where
  name : String
  parameters : List (String × UPType)
  preconditions : List FNode
  effects : List UPEffect

/-- The host problem, as consumed by `solver.py`: name, capability kind,
user types, objects (name and type, from `all_objects()`), fluent
declarations, actions, initial value assignments (`initial_values()`, a
dictionary in insertion order) and goals. -/
structure UPProblem where
  name : String
  kind : ProblemKind
  userTypes : List UPType
  objects : List (String × UPType)
  fluents : List UPFluent
  actions : List UPAction
  initialValues : List (FNode × FNode)
  goals : List FNode

/-- `problem.action(name)`: resolve an action of the problem by name. -/
def UPProblem.action (p : UPProblem) (n : String) : Option UPAction :=
  p.actions.find? (fun a => a.name == n)

/-- `problem.object(name)`: resolve an object of the problem by name. -/
def UPProblem.object (p : UPProblem) (n : String) : Option (String × UPType) :=
  p.objects.find? (fun o => o.1 == n)

/-- A type together with all its ancestors (the father chain). -/
def UPType.selfAndAncestors : UPType → List UPType
  | .mk n f => .mk n f :: (match f with
      | some g => g.selfAndAncestors
      | none => [])

/-- All types reachable in a list of types, fathers included. -/
def typeClosure (l : List UPType) : List UPType :=
  (l.map UPType.selfAndAncestors).flatten

/-- `problem.has_type(name)`: whether the problem declares a type of that
name (the declared types being the user types and their ancestors). -/
def UPProblem.hasType (p : UPProblem) (n : String) : Bool :=
  (typeClosure p.userTypes).any (fun t => t.name == n)

/-! ## Errors

The Python exceptions `solver.py` can raise, or propagate from the host
model accessors it calls. -/

inductive ConvError where
  /-- `UPUnsupportedProblemTypeError(msg)`: the user-facing rejection. -/
  | unsupportedProblemType (msg : String)
  /-- `raise NotImplementedError` (lines 167 and 186). -/
  | notImplementedError
  /-- A failed `assert`, in `solver.py` itself or inside a host-model
  accessor (`FNode.object`, `FNode.bool_constant_value`, ...). -/
  | assertionError
  /-- A failed lookup: missing dictionary key, unknown action or object
  name, indexing an empty string. -/
  | keyError
  /-- A bare `raise` with no active exception (line 37). -/
  | runtimeError
deriving DecidableEq

/-! ## The type node registry (`self.pyp_types` and `_convert_type`) -/

/-- The per-session translation state: the `self.pyp_types` dictionary
(name → pyperplan type, in insertion order) and the `self._has_object_type`
flag set by `_convert_domain`. -/
structure ConvState where
  pypTypes : List (String × PyperplanType)
  hasObjectType : Bool
deriving DecidableEq

/-- A name lookup in an association list in insertion order (the value of
the first entry carrying the name). -/
def lookupL (l : List (String × PyperplanType)) (n : String) : Option PyperplanType :=
  (l.find? (fun p => p.1 == n)).map (fun p => p.2)

/-- Python `dict` assignment `d[n] = v`: an existing key keeps its position
and gets the new value, a fresh key is appended. -/
def dictSet (l : List (String × PyperplanType)) (n : String) (v : PyperplanType) :
    List (String × PyperplanType) :=
  if l.any (fun p => p.1 == n) then
    l.map (fun p => if p.1 == n then (n, v) else p)
  else
    l ++ [(n, v)]

namespace ConvState

/-- `self.pyp_types.get(name, None)`. -/
def lookup (st : ConvState) (n : String) : Option PyperplanType :=
  lookupL st.pypTypes n

/-- `self.pyp_types[name] = v`. -/
def insert (st : ConvState) (n : String) (v : PyperplanType) : ConvState :=
  { st with pypTypes := dictSet st.pypTypes n v }

end ConvState

/-- Height of the father chain, the termination measure of
`_convert_type`'s recursion. -/
def UPType.usize : UPType → Nat
  | .mk _ none => 1
  | .mk _ (some f) => 1 + f.usize

/-- `_convert_type` (lines 196-210).  The caller guarantees a user type
(line 197 asserts `type.is_user_type()`; `UPType` models exactly the user
types).  `t = self.pyp_types.get(type.name(), None)`; when `t` is not
`None` the memoized node is returned unchanged.  Otherwise the father is
determined — recursively for a declared father; else, when
`_has_object_type` is false, the father is `self.pyp_types['object']`
(modelled by `lookup`: the key is present in every state produced by
`_convert_domain`, which seeds it, so the `KeyError` of a missing key is
unreachable from the entry points); else the father stays `None` — and the
new node is built and stored. -/
def convertType : UPType → ConvState → PyperplanType × ConvState
  | .mk tname tfather, st =>
    (st.lookup tname).elim
      (match tfather with
       | some f =>
         let r := convertType f st
         let newT : PyperplanType := .mk tname (some r.1)
         (newT, r.2.insert tname newT)
       | none =>
         let newT : PyperplanType :=
           .mk tname (if st.hasObjectType then none else st.lookup "object")
         (newT, st.insert tname newT))
      (fun t => (t, st))
termination_by t _ => t.usize
decreasing_by simp [UPType.usize]

/-! ## Error messages

The f-string messages of the `UPUnsupportedProblemTypeError` raises, one
function per raise site.  The interpolations `{problem}` and `{action}` of
the source render the whole problem/action object through the host model's
printer; they are modelled by the object's name. -/

/-- Line 124. -/
def negativeConditionsMsg (pname : String) : String :=
  "Problem: " ++ pname ++ " contains negative preconditions or negative goals. The solver Pyperplan does not support that!"

/-- Line 126. -/
def disjunctiveConditionsMsg (pname : String) : String :=
  "Problem: " ++ pname ++ " contains disjunctive preconditions. The solver Pyperplan does not support that!"

/-- Line 128. -/
def equalityMsg (pname : String) : String :=
  "Problem " ++ pname ++ " contains an equality symbol. The solver Pyperplan does not support that!"

/-- Line 131. -/
def numbersMsg (pname : String) : String :=
  "Problem " ++ pname ++ " contains numbers. The solver Pyperplan does not support that!"

/-- Line 133. -/
def conditionalEffectsMsg (pname : String) : String :=
  "Problem " ++ pname ++ " contains conditional effects. The solver Pyperplan does not support that!"

/-- Line 114. -/
def initValueMsg (f v : FNode) : String :=
  "Initial value: " ++ fnodeStr v ++ " of fluent: " ++ fnodeStr f ++ " is not True or False."

/-- Line 107. -/
def goalOperandMsg (pname : String) (x : FNode) : String :=
  "The problem: " ++ pname ++ " has expression: " ++ fnodeStr x ++ " into his goals.\nPyperplan does not support that operand."

/-- Line 172. -/
def precondMsg (x : FNode) (actionName : String) : String :=
  "In precondition: " ++ fnodeStr x ++ " of action: " ++ actionName ++ " is not an AND or a FLUENT"

/-! ## `_convert_goal` (lines 93-108) -/

/-- The inner loop of line 101-102: each argument `o` of a popped fluent
expression goes through `o.object().name()` and
`(self._convert_type(o.object().type()), )` — `o.object()` fails an
assertion inside the host model when `o` is not an object expression. -/
def convertGoalArgs : List FNode → ConvState → Except ConvError (List (String × SigType) × ConvState)
  | [], st => .ok ([], st)
  | o :: rest, st =>
    match o.object with
    | some (oname, oty) =>
      let r := convertType oty st
      match convertGoalArgs rest r.2 with
      | .ok (l, st2) => .ok ((oname, .tuple1 r.1) :: l, st2)
      | .error e => .error e
    | none => .error .assertionError

/-- The `while stack` loop of lines 97-107, for one goal: the top of the
Python list-as-stack is the head of the Lean list, so `stack.extend(x.args())`
pushes the reversed argument list in front.  A popped fluent expression
contributes a predicate, a conjunction pushes its sub-expressions, anything
else raises the user-facing unsupported-operand error. -/
def flattenGoal (pname : String) : List FNode → ConvState → Except ConvError (List Predicate × ConvState)
  | [], st => .ok ([], st)
  | x :: stack, st =>
    match x with
    | .fluentExp fname fargs =>
      match convertGoalArgs fargs st with
      | .ok (obj_l, st1) =>
        match flattenGoal pname stack st1 with
        | .ok (rest, st2) => .ok (⟨fname, obj_l⟩ :: rest, st2)
        | .error e => .error e
      | .error e => .error e
    | .andExp aargs => flattenGoal pname (aargs.reverse ++ stack) st
    | x => .error (.unsupportedProblemType (goalOperandMsg pname x))
termination_by l _ => fsizeL l
decreasing_by
  all_goals simp [fsizeL, fsizeL_append, fsizeL_reverse, fsize]

/-- The outer `for f in problem.goals()` loop of `_convert_goal`: each goal
is flattened with a fresh one-element stack, the predicates accumulate into
one list. -/
def convertGoalList (pname : String) : List FNode → ConvState → Except ConvError (List Predicate × ConvState)
  | [], st => .ok ([], st)
  | g :: gs, st =>
    match flattenGoal pname [g] st with
    | .ok (p1, st1) =>
      match convertGoalList pname gs st1 with
      | .ok (p2, st2) => .ok (p1 ++ p2, st2)
      | .error e => .error e
    | .error e => .error e

/-- `_convert_goal` (lines 93-108). -/
def convertGoal (problem : UPProblem) (st : ConvState) : Except ConvError (List Predicate × ConvState) :=
  convertGoalList problem.name problem.goals st

/-! ## `_convert_initial_values` (lines 110-120) -/

/-- Lines 117-118: the arguments of an initial fluent, stored with a *bare*
pyperplan type (no 1-tuple at this one call site). -/
def convertInitArgs : List FNode → ConvState → Except ConvError (List (String × SigType) × ConvState)
  | [], st => .ok ([], st)
  | o :: rest, st =>
    match o.object with
    | some (oname, oty) =>
      let r := convertType oty st
      match convertInitArgs rest r.2 with
      | .ok (l, st2) => .ok ((oname, .bare r.1) :: l, st2)
      | .error e => .error e
    | none => .error .assertionError

/-- `_convert_initial_values` (lines 110-120), over the assignment list: a
non-boolean value raises the user-facing unsupported error; a `True` value
contributes a predicate; a `False` value is skipped (closed world). -/
def convertInitList : List (FNode × FNode) → ConvState → Except ConvError (List Predicate × ConvState)
  | [], st => .ok ([], st)
  | (f, v) :: rest, st =>
    if v.isBoolConstant = false then
      .error (.unsupportedProblemType (initValueMsg f v))
    else if v.boolConstantValue = some true then
      match convertInitArgs f.args st with
      | .ok (obj_l, st1) =>
        match f.fluentName with
        | some fname =>
          match convertInitList rest st1 with
          | .ok (rest_l, st2) => .ok (⟨fname, obj_l⟩ :: rest_l, st2)
          | .error e => .error e
        | none => .error .assertionError
      | .error e => .error e
    else
      convertInitList rest st

/-- `_convert_initial_values` on a problem. -/
def convertInitialValues (problem : UPProblem) (st : ConvState) : Except ConvError (List Predicate × ConvState) :=
  convertInitList problem.initialValues st

/-! ## `_convert_action` (lines 149-194) -/

/-- Lines 152-153: the action signature, one `(name, (type,))` entry per
parameter. -/
def convertActSign : List (String × UPType) → ConvState → List (String × SigType) × ConvState
  | [], st => ([], st)
  | (pn, pt) :: rest, st =>
    let r := convertType pt st
    let rr := convertActSign rest r.2
    ((pn, .tuple1 r.1) :: rr.1, rr.2)

/-- Lines 160-167: the arguments of a popped precondition fluent; a bound
parameter or an object is accepted, anything else raises
`NotImplementedError`. -/
def convertPrecondArgs : List FNode → ConvState → Except ConvError (List (String × SigType) × ConvState)
  | [], st => .ok ([], st)
  | e :: rest, st =>
    match e with
    | .paramExp pn pt =>
      let r := convertType pt st
      match convertPrecondArgs rest r.2 with
      | .ok (l, st2) => .ok ((pn, .tuple1 r.1) :: l, st2)
      | .error err => .error err
    | .objectExp obName ot =>
      let r := convertType ot st
      match convertPrecondArgs rest r.2 with
      | .ok (l, st2) => .ok ((obName, .tuple1 r.1) :: l, st2)
      | .error err => .error err
    | _ => .error .notImplementedError

/-- The `while stack` loop of lines 157-172, for one precondition: same
work-list traversal as the goal flattener, with the action-context error
message and the parameter-or-object argument rule. -/
def flattenPrecond (actionName : String) : List FNode → ConvState → Except ConvError (List Predicate × ConvState)
  | [], st => .ok ([], st)
  | x :: stack, st =>
    match x with
    | .fluentExp fname fargs =>
      match convertPrecondArgs fargs st with
      | .ok (signature, st1) =>
        match flattenPrecond actionName stack st1 with
        | .ok (rest, st2) => .ok (⟨fname, signature⟩ :: rest, st2)
        | .error e => .error e
      | .error e => .error e
    | .andExp aargs => flattenPrecond actionName (aargs.reverse ++ stack) st
    | x => .error (.unsupportedProblemType (precondMsg x actionName))
termination_by l _ => fsizeL l
decreasing_by
  all_goals simp [fsizeL, fsizeL_append, fsizeL_reverse, fsize]

/-- The outer `for p in action.preconditions()` loop (lines 155-172). -/
def flattenPrecondList (actionName : String) : List FNode → ConvState → Except ConvError (List Predicate × ConvState)
  | [], st => .ok ([], st)
  | p :: ps, st =>
    match flattenPrecond actionName [p] st with
    | .ok (l1, st1) =>
      match flattenPrecondList actionName ps st1 with
      | .ok (l2, st2) => .ok (l1 ++ l2, st2)
      | .error e => .error e
    | .error e => .error e

/-- Lines 177-186: the parameters of one effect's fluent — a bound
parameter or an object, anything else raises `NotImplementedError`. -/
def convertEffectParams : List FNode → ConvState → Except ConvError (List (String × SigType) × ConvState)
  | [], st => .ok ([], st)
  | p :: rest, st =>
    match p with
    | .paramExp pn pt =>
      let r := convertType pt st
      match convertEffectParams rest r.2 with
      | .ok (l, st2) => .ok ((pn, .tuple1 r.1) :: l, st2)
      | .error err => .error err
    | .objectExp obName ot =>
      let r := convertType ot st
      match convertEffectParams rest r.2 with
      | .ok (l, st2) => .ok ((obName, .tuple1 r.1) :: l, st2)
      | .error err => .error err
    | _ => .error .notImplementedError

/-- The `for e in action.effects()` loop of lines 176-191: convert the
effect's fluent arguments, assert the effect is unconditional (line 187),
then route the predicate into the add set when
`e.value().bool_constant_value()` is true and into the delete set otherwise
(`bool_constant_value` itself asserts a boolean constant inside the host
model). -/
def convertEffects : List UPEffect → ConvState → Except ConvError ((Finset Predicate × Finset Predicate) × ConvState)
  | [], st => .ok ((∅, ∅), st)
  | e :: rest, st =>
    match convertEffectParams e.fluent.args st with
    | .ok (params, st1) =>
      if e.isConditional then .error .assertionError
      else
        match e.value.boolConstantValue with
        | none => .error .assertionError
        | some b =>
          match e.fluent.fluentName with
          | none => .error .assertionError
          | some fname =>
            match convertEffects rest st1 with
            | .ok ((adds, dels), st2) =>
              if b then .ok ((insert ⟨fname, params⟩ adds, dels), st2)
              else .ok ((adds, insert ⟨fname, params⟩ dels), st2)
            | .error err => .error err
    | .error err => .error err

/-- `_convert_action` (lines 149-194).  `UPAction` models exactly the
instantaneous action shape, which line 151 asserts. -/
def convertAction (action : UPAction) (st : ConvState) : Except ConvError (PyperplanAction × ConvState) :=
  let s := convertActSign action.parameters st
  match flattenPrecondList action.name action.preconditions s.2 with
  | .ok (precond, st2) =>
    match convertEffects action.effects st2 with
    | .ok ((adds, dels), st3) =>
      .ok (⟨action.name, s.1, precond, ⟨adds, dels⟩⟩, st3)
    | .error e => .error e
  | .error e => .error e

/-! ## `_convert_domain` (lines 122-147) -/

/-- Lines 134-137: after the capability checks, `_convert_domain` records
`self._has_object_type = problem.has_type('object')`, seeds the synthetic
root `PyperplanType('object', None)` when the problem declares no `object`
type, and converts every user type.  The dictionary the session starts from
is the empty `self.pyp_types = {}` set up by `solve`/`ground` (lines 44 and
63).  The `update` of line 137 re-assigns each converted name to the node it
already maps to, a no-op on the dictionary, so it is modelled by the
conversion fold alone. -/
def registerUserTypes (problem : UPProblem) : ConvState :=
  let hasObj := problem.hasType "object"
  let st0 : ConvState :=
    ⟨if hasObj then [] else [("object", PyperplanType.mk "object" none)], hasObj⟩
  problem.userTypes.foldl (fun st t => (convertType t st).2) st0

/-- Lines 139-145: the predicate dictionary, one entry per fluent
declaration, keyed by fluent name (`dictP` is the same Python dictionary
assignment as `dictSet`, for predicate values). -/
def dictP (l : List (String × Predicate)) (n : String) (v : Predicate) :
    List (String × Predicate) :=
  if l.any (fun p => p.1 == n) then
    l.map (fun p => if p.1 == n then (n, v) else p)
  else
    l ++ [(n, v)]

/-- Lines 142-144: one `(param.name(), (self._convert_type(param.type()), ))`
entry per fluent signature position — the same shape as the action
signature conversion. -/
def convertActSignP : List (String × UPType) → ConvState → List (String × SigType) × ConvState
  | [], st => ([], st)
  | (pn, pt) :: rest, st =>
    let r := convertType pt st
    let rr := convertActSignP rest r.2
    ((pn, .tuple1 r.1) :: rr.1, rr.2)

def convertFluentsAux (acc : List (String × Predicate)) :
    List UPFluent → ConvState → List (String × Predicate) × ConvState
  | [], st => (acc, st)
  | f :: fs, st =>
    let s := convertActSignP f.signature st
    convertFluentsAux (dictP acc f.name ⟨f.name, s.1⟩) fs s.2

def convertFluents (fs : List UPFluent) (st : ConvState) :
    List (String × Predicate) × ConvState :=
  convertFluentsAux [] fs st

/-- The action dictionary assignment, Python `dict` semantics again. -/
def dictA (l : List (String × PyperplanAction)) (n : String) (v : PyperplanAction) :
    List (String × PyperplanAction) :=
  if l.any (fun p => p.1 == n) then
    l.map (fun p => if p.1 == n then (n, v) else p)
  else
    l ++ [(n, v)]

/-- Line 146: `{a.name: self._convert_action(a, problem.env) for a in
problem.actions()}`. -/
def convertActionListAux (acc : List (String × PyperplanAction)) :
    List UPAction → ConvState → Except ConvError (List (String × PyperplanAction) × ConvState)
  | [], st => .ok (acc, st)
  | a :: as_, st =>
    match convertAction a st with
    | .ok (pa, st1) => convertActionListAux (dictA acc a.name pa) as_ st1
    | .error e => .error e

def convertActionList (acts : List UPAction) (st : ConvState) :
    Except ConvError (List (String × PyperplanAction) × ConvState) :=
  convertActionListAux [] acts st

/-- `_convert_domain` (lines 122-147): the five capability rejections in
source order, then type registration, fluent-signature conversion and
action conversion, assembled into the pyperplan domain. -/
def convertDomain (problem : UPProblem) : Except ConvError (Domain × ConvState) :=
  if problem.kind.hasNegativeConditions then
    .error (.unsupportedProblemType (negativeConditionsMsg problem.name))
  else if problem.kind.hasDisjunctiveConditions then
    .error (.unsupportedProblemType (disjunctiveConditionsMsg problem.name))
  else if problem.kind.hasEquality then
    .error (.unsupportedProblemType (equalityMsg problem.name))
  else if problem.kind.hasContinuousNumbers || problem.kind.hasDiscreteNumbers then
    .error (.unsupportedProblemType (numbersMsg problem.name))
  else if problem.kind.hasConditionalEffects then
    .error (.unsupportedProblemType (conditionalEffectsMsg problem.name))
  else
    let st1 := registerUserTypes problem
    let pr := convertFluents problem.fluents st1
    match convertActionList problem.actions pr.2 with
    | .ok (acts, st3) =>
      .ok (⟨"domain_" ++ problem.name, [st3.pypTypes.map (fun p => p.2)], pr.1, acts⟩, st3)
    | .error e => .error e

/-! ## `_convert_problem` (lines 87-91) -/

/-- `pyperplan.pddl.pddl.Problem`. -/
structure PyperplanProblem where
  name : String
  domain : Domain
  objects : List (String × PyperplanType)
  initial_state : List Predicate
  goal : List Predicate

/-- The object dictionary of line 88:
`{o.name(): self._convert_type(o.type()) for o in problem.all_objects()}`. -/
def convertObjectsAux (acc : List (String × PyperplanType)) :
    List (String × UPType) → ConvState → List (String × PyperplanType) × ConvState
  | [], st => (acc, st)
  | (oname, oty) :: rest, st =>
    let r := convertType oty st
    convertObjectsAux (dictSet acc oname r.1) rest r.2

def convertObjects (objs : List (String × UPType)) (st : ConvState) :
    List (String × PyperplanType) × ConvState :=
  convertObjectsAux [] objs st

/-- `_convert_problem` (lines 87-91). -/
def convertProblem (domain : Domain) (problem : UPProblem) (st : ConvState) :
    Except ConvError (PyperplanProblem × ConvState) :=
  let obs := convertObjects problem.objects st
  match convertInitialValues problem obs.2 with
  | .ok (init, st2) =>
    match convertGoal problem st2 with
    | .ok (goal, st3) => .ok (⟨problem.name, domain, obs.1, init, goal⟩, st3)
    | .error e => .error e
  | .error e => .error e

/-! ## `_convert_string_to_action_instance` (lines 79-85) and `solve` -/

/-- `up.plan.ActionInstance`: an action together with its bound arguments,
the arguments being object expressions built by
`expr_manager.ObjectExp(problem.object(o_name))`. -/
structure ActionInstance where
  action : UPAction
  params : List FNode

/-- `_convert_string_to_action_instance` (lines 79-85).  Python string
operations on the identifier are modelled on its character list:
`string[0]`/`string[-1]` (an `IndexError` on the empty string, before the
assertion can run), the assertion of line 80, `string[1:-1]` as dropping
the first and last character, and `.split(" ")` as splitting on the space
character.  `problem.action`/`problem.object` raise on unknown names. -/
def convertStringToActionInstance (s : String) (problem : UPProblem) :
    Except ConvError ActionInstance :=
  match s.data.head?, s.data.getLast? with
  | some c0, some cl =>
    if c0 = '(' && cl = ')' then
      match ((s.data.drop 1).dropLast.splitOn ' ').map (fun l => String.mk l) with
      | [] => .error .keyError
      | a0 :: rest =>
        match problem.action a0 with
        | some action =>
          match rest.mapM (fun o_name => problem.object o_name) with
          | some objs => .ok ⟨action, objs.map (fun o => FNode.objectExp o.1 o.2)⟩
          | none => .error .keyError
        | none => .error .keyError
    else .error .assertionError
  | _, _ => .error .keyError

/-- The statuses of `up.solvers.results` that `solve` uses. -/
inductive ResultStatus where
  | solvedSatisficing
  | unsolvableProven
deriving DecidableEq

/-- The two result shapes `solve` builds: `up.plan.FinalReport(status, plan,
name)` for the no-solution case and
`up.solvers.PlanGenerationResult(status, SequentialPlan(actions), name)`
for the solved case (the sequential plan modelled by its action list). -/
inductive PlanResult where
  | finalReport (status : ResultStatus) (plan : Option (List ActionInstance)) (plannerName : String)
  | planGenerationResult (status : ResultStatus) (plan : List ActionInstance) (plannerName : String)

/-- `name()` (lines 39-41). -/
def solverName : String := "Pyperplan"

/-- `supports` (lines 212-217): the declared `supported_kind` carries only
`FLAT_TYPING` and `HIERARCHICAL_TYPING`, so the partial-order test
`problem_kind <= supported_kind` holds exactly when the problem requests no
feature beyond those two. -/
def supports (k : ProblemKind) : Bool :=
  !(k.hasNegativeConditions || k.hasDisjunctiveConditions || k.hasEquality ||
    k.hasContinuousNumbers || k.hasDiscreteNumbers || k.hasConditionalEffects)

/-- `solve` (lines 51-77).  The grounding call `_ground(prob)` and the
search call `_search(task, search, heuristic)` are the external Grounder
and Search Engine; the parameter `searchSolution` stands for the search's
answer — `None` for no solution, otherwise the ordered ground operator
names (`action_string.name` of line 76).  The timeout and output-stream
warnings of lines 59-62 only touch the warning stream.  Line 58 asserts
`self.supports(problem.kind())` before anything else. -/
def solve (problem : UPProblem) (searchSolution : Option (List String)) :
    Except ConvError PlanResult :=
  if !(supports problem.kind) then .error .assertionError
  else
    match convertDomain problem with
    | .ok (dom, st1) =>
      match convertProblem dom problem st1 with
      | .ok (_prob, _st2) =>
        match searchSolution with
        | none => .ok (.finalReport .unsolvableProven none solverName)
        | some sol =>
          match sol.mapM (fun a => convertStringToActionInstance a problem) with
          | .ok actions => .ok (.planGenerationResult .solvedSatisficing actions solverName)
          | .error e => .error e
      | .error e => .error e
    | .error e => .error e

/-- `SolverImpl.__init__` (lines 35-37): any keyword option at all triggers
a bare `raise` (a `RuntimeError`, as no exception is active); no options
construct the solver. -/
def solverImplInit {A : Type} (options : List (String × A)) : Except ConvError Unit :=
  if options.length > 0 then .error .runtimeError else .ok ()

/-! ## Verification-side reference functions

Pure functions used only to *state* properties of the translation; each is
obtained by unfolding the corresponding source loop under the conditions
spelled out in the theorem that uses it. -/

/-- The nodes the work-list traversal of `_convert_goal` /
`_convert_action` can pop, starting from one expression: the expression
itself, and everything reachable through conjunction arguments. -/
inductive Reaches : FNode → FNode → Prop where
  | refl (x : FNode) : Reaches x x
  | viaAnd {args : List FNode} {y z : FNode} (hy : y ∈ args)
      (h : Reaches y z) : Reaches (.andExp args) z

/- Does the traversal starting at an expression meet only fluent
applications and conjunctions (the two shapes the flatteners accept)? -/
mutual
def conjOnly : FNode → Bool
  | .fluentExp _ _ => true
  | .andExp args => conjOnlyList args
  | _ => false
def conjOnlyList : List FNode → Bool
  | [] => true
  | x :: l => conjOnly x && conjOnlyList l
end

/-- A goal-predicate argument the source accepts without failure: an object
expression whose type name is already registered (which holds for every
type of the problem once `_convert_domain` has run). -/
def goalArgOk (st : ConvState) : FNode → Bool
  | .objectExp _ oty => (st.lookup oty.name).isSome
  | _ => false

/- All traversal-reachable nodes are fluents (with acceptable, registered
arguments) or conjunctions. -/
mutual
def goalShapeOk (st : ConvState) : FNode → Bool
  | .fluentExp _ fargs => fargs.all (goalArgOk st)
  | .andExp args => goalShapeOkList st args
  | _ => false
def goalShapeOkList (st : ConvState) : List FNode → Bool
  | [] => true
  | x :: l => goalShapeOk st x && goalShapeOkList st l
end

/- Every traversal-reachable fluent has acceptable arguments (nodes of
other shapes are allowed — the traversal stops at them before looking at
anything below). -/
mutual
def goalArgsBelowOk (st : ConvState) : FNode → Bool
  | .fluentExp _ fargs => fargs.all (goalArgOk st)
  | .andExp args => goalArgsBelowOkList st args
  | _ => true
def goalArgsBelowOkList (st : ConvState) : List FNode → Bool
  | [] => true
  | x :: l => goalArgsBelowOk st x && goalArgsBelowOkList st l
end

/-- A precondition/effect argument the source accepts: a bound parameter or
an object, with a registered type name. -/
def precondArgOk (st : ConvState) : FNode → Bool
  | .paramExp _ pt => (st.lookup pt.name).isSome
  | .objectExp _ ot => (st.lookup ot.name).isSome
  | _ => false

mutual
def precondShapeOk (st : ConvState) : FNode → Bool
  | .fluentExp _ fargs => fargs.all (precondArgOk st)
  | .andExp args => precondShapeOkList st args
  | _ => false
def precondShapeOkList (st : ConvState) : List FNode → Bool
  | [] => true
  | x :: l => precondShapeOk st x && precondShapeOkList st l
end

mutual
def precondArgsBelowOk (st : ConvState) : FNode → Bool
  | .fluentExp _ fargs => fargs.all (precondArgOk st)
  | .andExp args => precondArgsBelowOkList st args
  | _ => true
def precondArgsBelowOkList (st : ConvState) : List FNode → Bool
  | [] => true
  | x :: l => precondArgsBelowOk st x && precondArgsBelowOkList st l
end

/-- The predicate `_convert_goal` emits for a popped goal fluent whose
arguments are object expressions. -/
def goalPredOf (st : ConvState) : FNode → Predicate
  | .fluentExp n fargs =>
    ⟨n, fargs.filterMap (fun o =>
      match o with
      | .objectExp oname oty => some (oname, .tuple1 (convertType oty st).1)
      | _ => none)⟩
  | _ => ⟨"", []⟩

/-- The predicate `_convert_action` emits for a popped precondition fluent
whose arguments are parameters or objects. -/
def precondPredOf (st : ConvState) : FNode → Predicate
  | .fluentExp n fargs =>
    ⟨n, fargs.filterMap (fun o =>
      match o with
      | .paramExp pn pt => some (pn, .tuple1 (convertType pt st).1)
      | .objectExp oname oty => some (oname, .tuple1 (convertType oty st).1)
      | _ => none)⟩
  | _ => ⟨"", []⟩

/-- The initial fact `_convert_initial_values` emits for a `True`-valued
fluent with object arguments (bare types at this call site). -/
def initFactOf (st : ConvState) : FNode → Predicate
  | .fluentExp n fargs =>
    ⟨n, fargs.filterMap (fun o =>
      match o with
      | .objectExp oname oty => some (oname, .bare (convertType oty st).1)
      | _ => none)⟩
  | _ => ⟨"", []⟩

/-- An initial assignment `_convert_initial_values` processes without
failure: a boolean constant value, and — when the value is `True` — a
fluent expression with registered object arguments. -/
def goodInitPair (st : ConvState) : FNode × FNode → Bool
  | (f, v) =>
    match v with
    | .boolConstant true =>
      match f with
      | .fluentExp _ fargs => fargs.all (goalArgOk st)
      | _ => false
    | .boolConstant false => true
    | _ => false

/-- The `True`-valued assignments of an initial-value list, as the facts the
source emits for them, in order. -/
def trueInitFacts (st : ConvState) (init : List (FNode × FNode)) : List Predicate :=
  (init.filter (fun fv =>
    match fv.2 with
    | FNode.boolConstant true => true
    | _ => false)).map (fun fv => initFactOf st fv.1)

/-- An effect `_convert_action` processes without failure: unconditional,
boolean-constant target value, fluent expression with registered
parameter/object arguments. -/
def goodEffect (st : ConvState) (e : UPEffect) : Bool :=
  !e.isConditional && e.value.isBoolConstant &&
  (match e.fluent with
   | .fluentExp _ fargs => fargs.all (precondArgOk st)
   | _ => false)

/-- The predicate template of one effect. -/
def effectPredOf (st : ConvState) (e : UPEffect) : Predicate :=
  precondPredOf st e.fluent

/-- The add set the effect loop builds: the templates of the effects whose
target value is `True`, duplicates collapsed. -/
def effectsAdds (st : ConvState) (es : List UPEffect) : Finset Predicate :=
  ((es.filter (fun e =>
    match e.value with
    | FNode.boolConstant b => b
    | _ => false)).map (effectPredOf st)).toFinset

/-- The delete set: the templates of the effects whose target value is not
`True`, duplicates collapsed. -/
def effectsDels (st : ConvState) (es : List UPEffect) : Finset Predicate :=
  ((es.filter (fun e =>
    match e.value with
    | FNode.boolConstant b => !b
    | _ => false)).map (effectPredOf st)).toFinset

/-- The reference translation of one user type, as `_convert_type` registers
it on first sight in a consistently-named problem: the declared father
recursively, else the synthetic root when the problem declares no `object`
type, else no father. -/
def pypOfType (hasObj : Bool) : UPType → PyperplanType
  | .mk n fa =>
    .mk n (match fa with
           | some f => some (pypOfType hasObj f)
           | none => if hasObj then none else some (.mk "object" none))
termination_by t => t.usize
decreasing_by simp [UPType.usize]

/-- Name consistency of a set of types: two types carrying the same name
are the same type (the shape every well-formed host problem has, since its
type environment is a map keyed by name). -/
def namesInjective (l : List UPType) : Bool :=
  l.all (fun a => l.all (fun b => (a.name != b.name) || (a == b)))

/-! ## Concrete fixtures

The end-to-end example of the specification (a `room` type, an `at`
predicate, a `move` action, objects `r1`, `r2`), used to witness the claim
theorems on concrete inputs. -/

def egKindClean : ProblemKind :=
  ⟨false, false, false, false, false, false, true, false⟩

def egRoom : UPType := .mk "room" none

def egAt : UPFluent := ⟨"at", [("x", egRoom)]⟩

def egMove : UPAction :=
  ⟨"move", [("from", egRoom), ("to", egRoom)],
   [.fluentExp "at" [.paramExp "from" egRoom]],
   [⟨.fluentExp "at" [.paramExp "to" egRoom], .boolConstant true, false⟩,
    ⟨.fluentExp "at" [.paramExp "from" egRoom], .boolConstant false, false⟩]⟩

def egProblem : UPProblem :=
  ⟨"eg", egKindClean, [egRoom], [("r1", egRoom), ("r2", egRoom)],
   [egAt], [egMove],
   [(.fluentExp "at" [.objectExp "r1" egRoom], .boolConstant true),
    (.fluentExp "at" [.objectExp "r2" egRoom], .boolConstant false)],
   [.fluentExp "at" [.objectExp "r2" egRoom]]⟩

def egProblemNeg : UPProblem :=
  { egProblem with kind := { egKindClean with hasNegativeConditions := true } }

def egProblemDisj : UPProblem :=
  { egProblem with kind := { egKindClean with hasDisjunctiveConditions := true } }

def egProblemEq : UPProblem :=
  { egProblem with kind := { egKindClean with hasEquality := true } }

def egProblemNum : UPProblem :=
  { egProblem with kind := { egKindClean with hasDiscreteNumbers := true } }

def egProblemCond : UPProblem :=
  { egProblem with kind := { egKindClean with hasConditionalEffects := true } }

/-- The translated pyperplan nodes, domain, problem and session state of
the example problem (checked against the translation by the lemmas
`egProblem_domain` and `egProblem_problem`). -/
def egObjT : PyperplanType := .mk "object" none

def egRoomT : PyperplanType := .mk "room" (some egObjT)

def egSt : ConvState := ⟨[("object", egObjT), ("room", egRoomT)], false⟩

def egDomain : Domain :=
  ⟨"domain_eg", [[egObjT, egRoomT]],
   [("at", ⟨"at", [("x", .tuple1 egRoomT)]⟩)],
   [("move", ⟨"move", [("from", .tuple1 egRoomT), ("to", .tuple1 egRoomT)],
     [⟨"at", [("from", .tuple1 egRoomT)]⟩],
     ⟨{⟨"at", [("to", .tuple1 egRoomT)]⟩}, {⟨"at", [("from", .tuple1 egRoomT)]⟩}⟩⟩)]⟩

def egPyProblem : PyperplanProblem :=
  ⟨"eg", egDomain, [("r1", egRoomT), ("r2", egRoomT)],
   [⟨"at", [("r1", .bare egRoomT)]⟩],
   [⟨"at", [("r2", .tuple1 egRoomT)]⟩]⟩

/-! ## Lemmas and claim theorems -/
/-! ### Message lengths (used to separate the five rejection reasons) -/

theorem negativeConditionsMsg_length (n : String) :
    (negativeConditionsMsg n).length = n.length + 104 := by
  simp only [negativeConditionsMsg, String.length_append]
  have h1 : ("Problem: ").length = 9 := rfl
  have h2 : (" contains negative preconditions or negative goals. The solver Pyperplan does not support that!").length = 95 := rfl
  omega

theorem disjunctiveConditionsMsg_length (n : String) :
    (disjunctiveConditionsMsg n).length = n.length + 89 := by
  simp only [disjunctiveConditionsMsg, String.length_append]
  have h1 : ("Problem: ").length = 9 := rfl
  have h2 : (" contains disjunctive preconditions. The solver Pyperplan does not support that!").length = 80 := rfl
  omega

theorem equalityMsg_length (n : String) :
    (equalityMsg n).length = n.length + 81 := by
  simp only [equalityMsg, String.length_append]
  have h1 : ("Problem ").length = 8 := rfl
  have h2 : (" contains an equality symbol. The solver Pyperplan does not support that!").length = 73 := rfl
  omega

theorem numbersMsg_length (n : String) :
    (numbersMsg n).length = n.length + 70 := by
  simp only [numbersMsg, String.length_append]
  have h1 : ("Problem ").length = 8 := rfl
  have h2 : (" contains numbers. The solver Pyperplan does not support that!").length = 62 := rfl
  omega

theorem conditionalEffectsMsg_length (n : String) :
    (conditionalEffectsMsg n).length = n.length + 74 + 8 := by
  simp only [conditionalEffectsMsg, String.length_append]
  have h1 : ("Problem ").length = 8 := rfl
  have h2 : (" contains conditional effects. The solver Pyperplan does not support that!").length = 74 := rfl
  omega

/-- **C1.** `_convert_domain` rejects a problem whose capability profile
indicates negative conditions, disjunctive conditions, equality, numeric
fluents (continuous or discrete) or conditional effects, with the
user-facing `UPUnsupportedProblemTypeError` carrying the rejection reason
of the corresponding check; the checks run in source order before any
translation work, and a failing check makes the whole translation return
the error alone (no partial output exists, the result being the error
value); the five rejection reasons are pairwise distinct. -/
theorem claim_C1 (p : UPProblem) :
    (p.kind.hasNegativeConditions = true →
      convertDomain p = .error (.unsupportedProblemType (negativeConditionsMsg p.name))) ∧
    (p.kind.hasNegativeConditions = false → p.kind.hasDisjunctiveConditions = true →
      convertDomain p = .error (.unsupportedProblemType (disjunctiveConditionsMsg p.name))) ∧
    (p.kind.hasNegativeConditions = false → p.kind.hasDisjunctiveConditions = false →
      p.kind.hasEquality = true →
      convertDomain p = .error (.unsupportedProblemType (equalityMsg p.name))) ∧
    (p.kind.hasNegativeConditions = false → p.kind.hasDisjunctiveConditions = false →
      p.kind.hasEquality = false →
      (p.kind.hasContinuousNumbers || p.kind.hasDiscreteNumbers) = true →
      convertDomain p = .error (.unsupportedProblemType (numbersMsg p.name))) ∧
    (p.kind.hasNegativeConditions = false → p.kind.hasDisjunctiveConditions = false →
      p.kind.hasEquality = false →
      (p.kind.hasContinuousNumbers || p.kind.hasDiscreteNumbers) = false →
      p.kind.hasConditionalEffects = true →
      convertDomain p = .error (.unsupportedProblemType (conditionalEffectsMsg p.name))) ∧
    (negativeConditionsMsg p.name ≠ disjunctiveConditionsMsg p.name) ∧
    (negativeConditionsMsg p.name ≠ equalityMsg p.name) ∧
    (negativeConditionsMsg p.name ≠ numbersMsg p.name) ∧
    (negativeConditionsMsg p.name ≠ conditionalEffectsMsg p.name) ∧
    (disjunctiveConditionsMsg p.name ≠ equalityMsg p.name) ∧
    (disjunctiveConditionsMsg p.name ≠ numbersMsg p.name) ∧
    (disjunctiveConditionsMsg p.name ≠ conditionalEffectsMsg p.name) ∧
    (equalityMsg p.name ≠ numbersMsg p.name) ∧
    (equalityMsg p.name ≠ conditionalEffectsMsg p.name) ∧
    (numbersMsg p.name ≠ conditionalEffectsMsg p.name) := by
  refine ⟨?_, ?_, ?_, ?_, ?_, ?_, ?_, ?_, ?_, ?_, ?_, ?_, ?_, ?_, ?_⟩
  · intro h1; simp [convertDomain, h1]
  · intro h1 h2; simp [convertDomain, h1, h2]
  · intro h1 h2 h3; simp [convertDomain, h1, h2, h3]
  · intro h1 h2 h3 h4; simp [convertDomain, h1, h2, h3, h4]
  · intro h1 h2 h3 h4 h5
    simp only [Bool.or_eq_false_iff] at h4
    simp [convertDomain, h1, h2, h3, h4.1, h4.2, h5]
  all_goals
    intro h
    have hl := congrArg String.length h
    simp only [negativeConditionsMsg_length, disjunctiveConditionsMsg_length,
      equalityMsg_length, numbersMsg_length, conditionalEffectsMsg_length] at hl
    omega

theorem claim_C1_witness :
    convertDomain egProblemNeg =
      .error (.unsupportedProblemType (negativeConditionsMsg egProblemNeg.name)) ∧
    convertDomain egProblemDisj =
      .error (.unsupportedProblemType (disjunctiveConditionsMsg egProblemDisj.name)) ∧
    convertDomain egProblemEq =
      .error (.unsupportedProblemType (equalityMsg egProblemEq.name)) ∧
    convertDomain egProblemNum =
      .error (.unsupportedProblemType (numbersMsg egProblemNum.name)) ∧
    convertDomain egProblemCond =
      .error (.unsupportedProblemType (conditionalEffectsMsg egProblemCond.name)) :=
  ⟨(claim_C1 egProblemNeg).1 rfl,
   (claim_C1 egProblemDisj).2.1 rfl rfl,
   (claim_C1 egProblemEq).2.2.1 rfl rfl rfl,
   (claim_C1 egProblemNum).2.2.2.1 rfl rfl rfl rfl,
   (claim_C1 egProblemCond).2.2.2.2.1 rfl rfl rfl rfl rfl⟩

/-- **C10.** Constructing the solver with any keyword options at all raises
(the bare `raise` of line 37, a `RuntimeError`); construction with no
options succeeds. -/
theorem claim_C10 {A : Type} (options : List (String × A)) :
    (options ≠ [] → solverImplInit options = .error .runtimeError) ∧
    solverImplInit ([] : List (String × A)) = .ok () := by
  constructor
  · intro h
    unfold solverImplInit
    rw [if_pos (List.length_pos.mpr h)]
  · rfl

theorem claim_C10_witness :
    solverImplInit [("weight", "2")] = .error .runtimeError ∧
    solverImplInit ([] : List (String × String)) = .ok () :=
  ⟨(claim_C10 [("weight", "2")]).1 (by simp), (claim_C10 ([] : List (String × String))).2⟩


theorem lookupL_nil (n : String) : lookupL [] n = none := rfl

theorem lookupL_cons (q : String × PyperplanType) (l : List (String × PyperplanType))
    (n : String) :
    lookupL (q :: l) n = if q.1 == n then some q.2 else lookupL l n := by
  cases h : q.1 == n <;> simp [lookupL, List.find?, h]

theorem lookupL_dictSet_self (l : List (String × PyperplanType)) (n : String)
    (v : PyperplanType) : lookupL (dictSet l n v) n = some v := by
  induction l with
  | nil => simp [dictSet, lookupL_cons]
  | cons q l ih =>
    by_cases hq : (q.1 == n) = true
    · simp only [dictSet, List.any_cons, hq, Bool.true_or, if_pos, List.map_cons, if_true]
      rw [lookupL_cons]
      simp
    · simp only [dictSet, List.any_cons, hq, Bool.false_or] at ih ⊢
      by_cases hl : (l.any fun p => p.1 == n) = true
      · simp only [hl, if_pos, List.map_cons, if_true] at ih ⊢
        rw [if_neg (by simp [hq]), lookupL_cons, if_neg hq]
        exact ih
      · simp only [hl, Bool.false_eq_true, if_false] at ih ⊢
        rw [List.cons_append, lookupL_cons, if_neg hq]
        exact ih

theorem lookupL_map_overwrite_ne (l : List (String × PyperplanType)) (n m : String)
    (v : PyperplanType) (hnm : m ≠ n) :
    lookupL (l.map fun p => if p.1 == n then (n, v) else p) m = lookupL l m := by
  induction l with
  | nil => rfl
  | cons q l ih =>
    by_cases hq : (q.1 == n) = true
    · have hq' : q.1 = n := by simpa using hq
      have hmn : ¬(n = m) := fun h => hnm h.symm
      simp only [List.map_cons, hq, if_true]
      rw [lookupL_cons, lookupL_cons]
      simp only [hq', hmn, beq_iff_eq, if_false]
      simpa using ih
    · simp only [List.map_cons, hq, Bool.false_eq_true, if_false]
      rw [lookupL_cons, lookupL_cons]
      cases hqm : q.1 == m
      · simpa [hqm] using ih
      · simp [hqm]

theorem lookupL_append_single_ne (l : List (String × PyperplanType)) (n m : String)
    (v : PyperplanType) (hnm : m ≠ n) :
    lookupL (l ++ [(n, v)]) m = lookupL l m := by
  induction l with
  | nil =>
    have hmn : (n == m) = false := by simpa using fun h => hnm h.symm
    simp [lookupL_cons, hmn, lookupL_nil]
  | cons q l ih =>
    rw [List.cons_append, lookupL_cons, lookupL_cons]
    cases hqm : q.1 == m
    · simpa [hqm] using ih
    · simp [hqm]

theorem lookupL_dictSet_ne (l : List (String × PyperplanType)) (n m : String)
    (v : PyperplanType) (hnm : m ≠ n) : lookupL (dictSet l n v) m = lookupL l m := by
  unfold dictSet
  by_cases h : (l.any fun p => p.1 == n) = true
  · rw [if_pos h]
    exact lookupL_map_overwrite_ne l n m v hnm
  · rw [if_neg h]
    exact lookupL_append_single_ne l n m v hnm

theorem lookup_insert_self (st : ConvState) (n : String) (v : PyperplanType) :
    (st.insert n v).lookup n = some v :=
  lookupL_dictSet_self st.pypTypes n v

theorem lookup_insert_ne (st : ConvState) (n m : String) (v : PyperplanType)
    (hnm : m ≠ n) : (st.insert n v).lookup m = st.lookup m :=
  lookupL_dictSet_ne st.pypTypes n m v hnm

theorem insert_hasObjectType (st : ConvState) (n : String) (v : PyperplanType) :
    (st.insert n v).hasObjectType = st.hasObjectType := rfl



/-- After converting a type, its name is registered and maps to the node the
conversion returned. -/
theorem convertType_lookup_self (t : UPType) (st : ConvState) :
    ((convertType t st).2).lookup t.name = some (convertType t st).1 := by
  obtain ⟨tname, tfather⟩ := t
  cases h : st.lookup tname with
  | some v => cases tfather <;> simp [convertType, h, UPType.name]
  | none =>
    cases tfather with
    | none =>
      simp only [convertType, h, UPType.name, Option.elim]
      exact lookup_insert_self _ _ _
    | some f =>
      simp only [convertType, h, UPType.name, Option.elim]
      exact lookup_insert_self _ _ _

/-- C2 helper: the memoization branch of `_convert_type`. -/
theorem convertType_lookup_hit (t : UPType) (st : ConvState) (v : PyperplanType)
    (h : st.lookup t.name = some v) : convertType t st = (v, st) := by
  obtain ⟨tname, tfather⟩ := t
  simp only [UPType.name] at h
  cases tfather <;> simp [convertType, h]

/-- **C2.** Type resolution is idempotent within one translation session:
converting the same user type a second time, in the session state left by
the first conversion, returns exactly the node the first conversion
returned, and leaves the state untouched; moreover after the first
conversion the session map sends the type's name to that very node, so no
type name is represented by two distinct nodes in one session. -/
theorem claim_C2 (t : UPType) (st : ConvState) :
    convertType t ((convertType t st).2) = ((convertType t st).1, (convertType t st).2)
    ∧ ((convertType t st).2).lookup t.name = some (convertType t st).1 := by
  refine ⟨?_, convertType_lookup_self t st⟩
  exact convertType_lookup_hit t _ _ (convertType_lookup_self t st)



/-- **C7.** The direct-parse plan reconstruction maps every ground action
identifier of the form `(name tok1 ... tokn)` — an identifier whose inner
part splits on the space delimiter into the action name followed by the
object names — to the action instance whose action is the model's action of
that name and whose arguments are, in order, the objects named by the
remaining tokens; an identifier that does not start with `(` and end with
`)` fails the programming-error assertion of line 80 instead of producing a
user-facing error. -/
theorem claim_C7 :
    (∀ (s : String) (problem : UPProblem) (aname : String) (toks : List String)
       (act : UPAction) (objs : List (String × UPType)),
       s.data.head? = some '(' →
       s.data.getLast? = some ')' →
       ((s.data.drop 1).dropLast.splitOn ' ').map (fun l => String.mk l) = aname :: toks →
       problem.action aname = some act →
       toks.mapM problem.object = some objs →
       convertStringToActionInstance s problem =
         .ok ⟨act, objs.map (fun o => FNode.objectExp o.1 o.2)⟩) ∧
    (∀ (s : String) (problem : UPProblem) (c0 cl : Char),
       s.data.head? = some c0 →
       s.data.getLast? = some cl →
       ¬(c0 = '(' ∧ cl = ')') →
       convertStringToActionInstance s problem = .error .assertionError) := by
  constructor
  · intro s problem aname toks act objs h1 h2 h3 h4 h5
    simp only [convertStringToActionInstance, h1, h2, h3, h4, h5]
    simp
  · intro s problem c0 cl h1 h2 h
    have hb : (decide (c0 = '(') && decide (cl = ')')) = false := by
      by_cases hc : c0 = '(' <;> by_cases hd : cl = ')' <;>
        simp [hc, hd] <;> exact h ⟨hc, hd⟩
    simp only [convertStringToActionInstance, h1, h2, hb]
    simp

theorem claim_C7_witness :
    convertStringToActionInstance "(move r1 r2)" egProblem =
      .ok ⟨egMove, [FNode.objectExp "r1" egRoom, FNode.objectExp "r2" egRoom]⟩ ∧
    convertStringToActionInstance "move r1 r2" egProblem = .error .assertionError := by
  constructor
  · have h := claim_C7.1 "(move r1 r2)" egProblem "move" ["r1", "r2"] egMove
      [("r1", egRoom), ("r2", egRoom)] (by decide) (by decide) (by decide)
      (by rfl) (by rfl)
    simpa using h
  · exact claim_C7.2 "move r1 r2" egProblem 'm' '2' (by decide) (by decide) (by decide)

/-- Unfolding of `List.mapM` over `Except`: a successful run produces one
output per input, in order. -/
theorem exceptMapM_ok {E A B : Type} (f : A → Except E B) :
    ∀ (l : List A) (r : List B), l.mapM f = .ok r →
      r.length = l.length ∧
      ∀ (i : Nat) (hi : i < l.length) (hi' : i < r.length),
        f (l.get ⟨i, hi⟩) = .ok (r.get ⟨i, hi'⟩) := by
  intro l
  induction l with
  | nil =>
    intro r h
    simp only [List.mapM_nil, pure, Except.pure] at h
    cases h
    exact ⟨rfl, fun i hi => by simp at hi⟩
  | cons a l ih =>
    intro r h
    rw [List.mapM_cons] at h
    cases hfa : f a with
    | error e =>
      rw [hfa] at h
      simp [Bind.bind, Except.bind] at h
    | ok b =>
      rw [hfa] at h
      cases hrest : l.mapM f with
      | error e =>
        rw [hrest] at h
        simp [Bind.bind, Except.bind] at h
      | ok bs =>
        rw [hrest] at h
        simp only [Bind.bind, Except.bind, pure, Except.pure, Except.ok.injEq] at h
        subst h
        obtain ⟨hlen, hidx⟩ := ih bs hrest
        refine ⟨by simp [hlen], ?_⟩
        intro i hi hi'
        cases i with
        | zero => simpa using hfa
        | succ n =>
          simp only [List.get_cons_succ]
          exact hidx n (by simpa using hi) (by simpa using hi')

/-- **C8.** Once translation succeeds, the solve entry point separates its
outcomes: a `None` search answer yields the `FinalReport` with status
`UNSOLVABLE_PROVEN` carrying no plan; a returned ground action sequence
(possibly empty) yields the `SOLVED_SATISFICING` result whose plan has
exactly one reconstructed action instance per ground identifier, in the
search's order; the empty sequence yields the solved result with the empty
plan, which is a different value from every unsolvable report. -/
theorem claim_C8 (problem : UPProblem) (dom : Domain) (st1 : ConvState)
    (prob : PyperplanProblem) (st2 : ConvState)
    (hs : supports problem.kind = true)
    (hd : convertDomain problem = .ok (dom, st1))
    (hp : convertProblem dom problem st1 = .ok (prob, st2)) :
    solve problem none = .ok (.finalReport .unsolvableProven none solverName) ∧
    (∀ (l : List String) (actions : List ActionInstance),
      l.mapM (fun a => convertStringToActionInstance a problem) = .ok actions →
      solve problem (some l) =
        .ok (.planGenerationResult .solvedSatisficing actions solverName) ∧
      actions.length = l.length ∧
      ∀ (i : Nat) (hi : i < l.length) (hi' : i < actions.length),
        convertStringToActionInstance (l.get ⟨i, hi⟩) problem =
          .ok (actions.get ⟨i, hi'⟩)) ∧
    solve problem (some []) =
      .ok (.planGenerationResult .solvedSatisficing [] solverName) ∧
    (∀ (s1 : ResultStatus) (pl : List ActionInstance) (n1 : String)
       (s2 : ResultStatus) (opl : Option (List ActionInstance)) (n2 : String),
       PlanResult.planGenerationResult s1 pl n1 ≠ PlanResult.finalReport s2 opl n2) := by
  have hcond : (!supports problem.kind) = false := by rw [hs]; rfl
  refine ⟨?_, ?_, ?_, ?_⟩
  · simp only [solve, hcond, Bool.false_eq_true, if_false, hd, hp]
  · intro l actions h
    obtain ⟨hlen, hidx⟩ :=
      exceptMapM_ok (fun a => convertStringToActionInstance a problem) l actions h
    refine ⟨?_, hlen, hidx⟩
    simp only [solve, hcond, Bool.false_eq_true, if_false, hd, hp, h]
  · simp only [solve, hcond, Bool.false_eq_true, if_false, hd, hp, List.mapM_nil, pure,
      Except.pure]
  · intro s1 pl n1 s2 opl n2
    exact fun h => PlanResult.noConfusion h

theorem egProblem_domain : convertDomain egProblem = .ok (egDomain, egSt) := by
  simp [convertDomain, registerUserTypes, egProblem, egKindClean, egRoom, egAt, egMove,
    UPProblem.hasType, typeClosure, UPType.selfAndAncestors, UPType.name, convertType,
    ConvState.lookup, ConvState.insert, lookupL, dictSet, convertFluents, convertFluentsAux,
    convertActSignP, convertActionList, convertActionListAux, convertAction, convertActSign,
    flattenPrecondList, flattenPrecond, convertPrecondArgs, convertEffects,
    convertEffectParams, FNode.args, FNode.fluentName, FNode.boolConstantValue, dictP, dictA,
    egDomain, egSt, egObjT, egRoomT]

theorem egProblem_problem : convertProblem egDomain egProblem egSt = .ok (egPyProblem, egSt) := by
  simp [convertProblem, convertObjects, convertObjectsAux, convertInitialValues,
    convertInitList, convertInitArgs, convertGoal, convertGoalList, flattenGoal,
    convertGoalArgs, egProblem, egKindClean, egRoom, convertType, ConvState.lookup,
    ConvState.insert, lookupL, dictSet, FNode.args, FNode.fluentName, FNode.object,
    FNode.isBoolConstant, FNode.boolConstantValue, egPyProblem, egDomain, egSt, egObjT,
    egRoomT]

theorem claim_C8_witness :
    solve egProblem none = .ok (.finalReport .unsolvableProven none solverName) ∧
    solve egProblem (some ["(move r1 r2)"]) =
      .ok (.planGenerationResult .solvedSatisficing
        [⟨egMove, [FNode.objectExp "r1" egRoom, FNode.objectExp "r2" egRoom]⟩] solverName) ∧
    solve egProblem (some []) =
      .ok (.planGenerationResult .solvedSatisficing [] solverName) := by
  have h := claim_C8 egProblem egDomain egSt egPyProblem egSt rfl
    egProblem_domain egProblem_problem
  refine ⟨h.1, ?_, h.2.2.1⟩
  refine (h.2.1 ["(move r1 r2)"]
    [⟨egMove, [FNode.objectExp "r1" egRoom, FNode.objectExp "r2" egRoom]⟩] ?_).1
  have hconv : convertStringToActionInstance "(move r1 r2)" egProblem =
      .ok ⟨egMove, [FNode.objectExp "r1" egRoom, FNode.objectExp "r2" egRoom]⟩ := by rfl
  simp only [List.mapM_cons, List.mapM_nil, hconv, Bind.bind, Except.bind, pure, Except.pure]

/-- A type whose name is registered converts by pure lookup, leaving the
session state unchanged. -/
theorem convertType_registered (t : UPType) (st : ConvState)
    (h : (st.lookup t.name).isSome = true) : convertType t st = ((convertType t st).1, st) := by
  obtain ⟨v, hv⟩ := Option.isSome_iff_exists.mp h
  rw [convertType_lookup_hit t st v hv]

/-- The argument list an initial fact stores, as a pure function of the
session state. -/
def initArgsOf (st : ConvState) (l : List FNode) : List (String × SigType) :=
  l.filterMap (fun o =>
    match o with
    | FNode.objectExp oname oty => some (oname, SigType.bare (convertType oty st).1)
    | _ => none)

theorem initFactOf_fluent (st : ConvState) (n : String) (fargs : List FNode) :
    initFactOf st (.fluentExp n fargs) = ⟨n, initArgsOf st fargs⟩ := rfl

theorem trueInitFacts_cons_true (st : ConvState) (f : FNode) (rest : List (FNode × FNode)) :
    trueInitFacts st ((f, FNode.boolConstant true) :: rest) =
      initFactOf st f :: trueInitFacts st rest := by
  simp [trueInitFacts, List.filter_cons]

theorem trueInitFacts_cons_false (st : ConvState) (f : FNode) (rest : List (FNode × FNode)) :
    trueInitFacts st ((f, FNode.boolConstant false) :: rest) = trueInitFacts st rest := by
  simp [trueInitFacts, List.filter_cons]

/-- The filter `_convert_initial_values` retains keeps exactly the
true-constant values. -/
theorem trueConst_of_match {v : FNode}
    (h : (match v with | FNode.boolConstant true => true | _ => false) = true) :
    v = .boolConstant true := by
  cases v with
  | boolConstant b =>
    cases b with
    | false => simp at h
    | true => rfl
  | fluentExp n l => simp at h
  | andExp l => simp at h
  | paramExp a b2 => simp at h
  | objectExp a b2 => simp at h
  | notExp a => simp at h
  | orExp l => simp at h
  | equalsExp a b2 => simp at h
  | intConstant i => simp at h

theorem convertInitArgs_ok (st : ConvState) :
    ∀ (l : List FNode), l.all (goalArgOk st) = true →
      convertInitArgs l st = .ok (initArgsOf st l, st) := by
  intro l
  induction l with
  | nil => intro _; simp [convertInitArgs, initArgsOf]
  | cons o rest ih =>
    intro h
    simp only [List.all_cons, Bool.and_eq_true] at h
    obtain ⟨ho, hrest⟩ := h
    cases o with
    | objectExp oname oty =>
      obtain ⟨v, hv⟩ := Option.isSome_iff_exists.mp
        (show (st.lookup oty.name).isSome = true by simpa [goalArgOk] using ho)
      have hreg := convertType_lookup_hit oty st v hv
      simp only [convertInitArgs, FNode.object, hreg, ih hrest, initArgsOf,
        List.filterMap_cons]
    | fluentExp n as_ => simp [goalArgOk] at ho
    | andExp as_ => simp [goalArgOk] at ho
    | paramExp pn pt => simp [goalArgOk] at ho
    | boolConstant b => simp [goalArgOk] at ho
    | notExp a => simp [goalArgOk] at ho
    | orExp as_ => simp [goalArgOk] at ho
    | equalsExp a b => simp [goalArgOk] at ho
    | intConstant v => simp [goalArgOk] at ho

theorem convertInitList_ok (st : ConvState) :
    ∀ (init : List (FNode × FNode)), init.all (goodInitPair st) = true →
      convertInitList init st = .ok (trueInitFacts st init, st) := by
  intro init
  induction init with
  | nil => intro _; simp [convertInitList, trueInitFacts]
  | cons fv rest ih =>
    intro h
    simp only [List.all_cons, Bool.and_eq_true] at h
    obtain ⟨hfv, hrest⟩ := h
    obtain ⟨f, v⟩ := fv
    cases v with
    | boolConstant b =>
      cases b with
      | true =>
        cases f with
        | fluentExp n fargs =>
          have hargs : fargs.all (goalArgOk st) = true := by
            simpa [goodInitPair] using hfv
          simp [convertInitList, FNode.isBoolConstant, FNode.boolConstantValue,
            FNode.args, FNode.fluentName, convertInitArgs_ok st fargs hargs, ih hrest,
            trueInitFacts_cons_true, initFactOf_fluent]
        | andExp as_ => simp [goodInitPair] at hfv
        | paramExp pn pt => simp [goodInitPair] at hfv
        | objectExp o1 o2 => simp [goodInitPair] at hfv
        | boolConstant b2 => simp [goodInitPair] at hfv
        | notExp a => simp [goodInitPair] at hfv
        | orExp as_ => simp [goodInitPair] at hfv
        | equalsExp a b2 => simp [goodInitPair] at hfv
        | intConstant v2 => simp [goodInitPair] at hfv
      | false =>
        simp [convertInitList, FNode.isBoolConstant, FNode.boolConstantValue,
          ih hrest, trueInitFacts_cons_false]
    | fluentExp n as_ => simp [goodInitPair] at hfv
    | andExp as_ => simp [goodInitPair] at hfv
    | paramExp pn pt => simp [goodInitPair] at hfv
    | objectExp o1 o2 => simp [goodInitPair] at hfv
    | notExp a => simp [goodInitPair] at hfv
    | orExp as_ => simp [goodInitPair] at hfv
    | equalsExp a b => simp [goodInitPair] at hfv
    | intConstant v2 => simp [goodInitPair] at hfv

theorem convertInitList_reject (st : ConvState) :
    ∀ (pre : List (FNode × FNode)) (f v : FNode) (rest : List (FNode × FNode)),
      pre.all (goodInitPair st) = true →
      v.isBoolConstant = false →
      convertInitList (pre ++ (f, v) :: rest) st =
        .error (.unsupportedProblemType (initValueMsg f v)) := by
  intro pre
  induction pre with
  | nil =>
    intro f v rest _ hv
    simp [convertInitList, hv]
  | cons fv pre ih =>
    intro f v rest h hv
    simp only [List.all_cons, Bool.and_eq_true] at h
    obtain ⟨hfv, hrest⟩ := h
    obtain ⟨f0, v0⟩ := fv
    cases v0 with
    | boolConstant b =>
      cases b with
      | true =>
        cases f0 with
        | fluentExp n fargs =>
          have hargs : fargs.all (goalArgOk st) = true := by
            simpa [goodInitPair] using hfv
          simp [convertInitList, FNode.isBoolConstant, FNode.boolConstantValue,
            FNode.args, FNode.fluentName, convertInitArgs_ok st fargs hargs,
            ih f v rest hrest hv]
        | andExp as_ => simp [goodInitPair] at hfv
        | paramExp pn pt => simp [goodInitPair] at hfv
        | objectExp o1 o2 => simp [goodInitPair] at hfv
        | boolConstant b2 => simp [goodInitPair] at hfv
        | notExp a => simp [goodInitPair] at hfv
        | orExp as_ => simp [goodInitPair] at hfv
        | equalsExp a b2 => simp [goodInitPair] at hfv
        | intConstant v2 => simp [goodInitPair] at hfv
      | false =>
        simp [convertInitList, FNode.isBoolConstant, FNode.boolConstantValue,
          ih f v rest hrest hv]
    | fluentExp n as_ => simp [goodInitPair] at hfv
    | andExp as_ => simp [goodInitPair] at hfv
    | paramExp pn pt => simp [goodInitPair] at hfv
    | objectExp o1 o2 => simp [goodInitPair] at hfv
    | notExp a => simp [goodInitPair] at hfv
    | orExp as_ => simp [goodInitPair] at hfv
    | equalsExp a b => simp [goodInitPair] at hfv
    | intConstant v2 => simp [goodInitPair] at hfv

/-- **C3.** `_convert_initial_values` rejects, with the user-facing
`UPUnsupportedProblemTypeError`, the first initial assignment whose value
is not a boolean constant (given that the assignments before it are
processable), and on success retains exactly the assignments whose value is
the boolean constant true, in order: every retained fact stems from a
true-valued assignment, and a fact that no true-valued assignment produces
— in particular one whose fluent is absent from the assignments or
assigned false — is not in the translated initial-fact list (closed
world). -/
theorem claim_C3 (st : ConvState) (init : List (FNode × FNode)) :
    (init.all (goodInitPair st) = true →
      convertInitList init st = .ok (trueInitFacts st init, st) ∧
      (∀ p ∈ trueInitFacts st init,
        ∃ fv ∈ init, fv.2 = FNode.boolConstant true ∧ p = initFactOf st fv.1) ∧
      (∀ p : Predicate,
        (¬ ∃ fv ∈ init, fv.2 = FNode.boolConstant true ∧ initFactOf st fv.1 = p) →
        p ∉ trueInitFacts st init)) ∧
    (∀ (pre : List (FNode × FNode)) (f v : FNode) (rest : List (FNode × FNode)),
      init = pre ++ (f, v) :: rest →
      pre.all (goodInitPair st) = true →
      v.isBoolConstant = false →
      convertInitList init st = .error (.unsupportedProblemType (initValueMsg f v))) := by
  constructor
  · intro h
    refine ⟨convertInitList_ok st init h, ?_, ?_⟩
    · intro p hp
      simp only [trueInitFacts, List.mem_map, List.mem_filter] at hp
      obtain ⟨fv, ⟨hmem, hval⟩, hfact⟩ := hp
      exact ⟨fv, hmem, trueConst_of_match hval, hfact.symm⟩
    · intro p hnone hp
      apply hnone
      simp only [trueInitFacts, List.mem_map, List.mem_filter] at hp
      obtain ⟨fv, ⟨hmem, hval⟩, hfact⟩ := hp
      exact ⟨fv, hmem, trueConst_of_match hval, hfact⟩
  · intro pre f v rest heq hpre hv
    rw [heq]
    exact convertInitList_reject st pre f v rest hpre hv

theorem claim_C3_witness :
    convertInitList egProblem.initialValues egSt =
      .ok ([⟨"at", [("r1", .bare egRoomT)]⟩], egSt) ∧
    convertInitList [(.fluentExp "batteryCharge" [], .intConstant 5)] egSt =
      .error (.unsupportedProblemType
        (initValueMsg (.fluentExp "batteryCharge" []) (.intConstant 5))) := by
  constructor
  · have h := ((claim_C3 egSt egProblem.initialValues).1 (by decide)).1
    have hval : trueInitFacts egSt egProblem.initialValues =
        [⟨"at", [("r1", .bare egRoomT)]⟩] := by
      simp [trueInitFacts, egProblem, initFactOf, egRoom, initArgsOf,
        convertType, ConvState.lookup, lookupL, egSt, egObjT, egRoomT]
    rw [hval] at h
    exact h
  · exact (claim_C3 egSt [(.fluentExp "batteryCharge" [], .intConstant 5)]).2
      [] (.fluentExp "batteryCharge" []) (.intConstant 5) [] rfl rfl rfl

/-- The signature entries a precondition/effect fluent stores, as a pure
function of the session state. -/
def precondArgsOf (st : ConvState) (l : List FNode) : List (String × SigType) :=
  l.filterMap (fun o =>
    match o with
    | FNode.paramExp pn pt => some (pn, SigType.tuple1 (convertType pt st).1)
    | FNode.objectExp oname oty => some (oname, SigType.tuple1 (convertType oty st).1)
    | _ => none)

theorem precondPredOf_fluent (st : ConvState) (n : String) (fargs : List FNode) :
    precondPredOf st (.fluentExp n fargs) = ⟨n, precondArgsOf st fargs⟩ := rfl

theorem isTrueValue_iff (v : FNode) :
    ((match v with | FNode.boolConstant b => b | _ => false) = true) ↔
      v = .boolConstant true := by
  cases v with
  | boolConstant b => cases b <;> simp
  | fluentExp n l => simp
  | andExp l => simp
  | paramExp a b2 => simp
  | objectExp a b2 => simp
  | notExp a => simp
  | orExp l => simp
  | equalsExp a b2 => simp
  | intConstant i => simp

theorem isFalseValue_iff (v : FNode) :
    ((match v with | FNode.boolConstant b => !b | _ => false) = true) ↔
      v = .boolConstant false := by
  cases v with
  | boolConstant b => cases b <;> simp
  | fluentExp n l => simp
  | andExp l => simp
  | paramExp a b2 => simp
  | objectExp a b2 => simp
  | notExp a => simp
  | orExp l => simp
  | equalsExp a b2 => simp
  | intConstant i => simp

theorem convertEffectParams_ok (st : ConvState) :
    ∀ (l : List FNode), l.all (precondArgOk st) = true →
      convertEffectParams l st = .ok (precondArgsOf st l, st) := by
  intro l
  induction l with
  | nil => intro _; simp [convertEffectParams, precondArgsOf]
  | cons o rest ih =>
    intro h
    simp only [List.all_cons, Bool.and_eq_true] at h
    obtain ⟨ho, hrest⟩ := h
    cases o with
    | paramExp pn pt =>
      obtain ⟨v, hv⟩ := Option.isSome_iff_exists.mp
        (show (st.lookup pt.name).isSome = true by simpa [precondArgOk] using ho)
      have hreg := convertType_lookup_hit pt st v hv
      simp only [convertEffectParams, hreg, ih hrest, precondArgsOf, List.filterMap_cons]
    | objectExp oname oty =>
      obtain ⟨v, hv⟩ := Option.isSome_iff_exists.mp
        (show (st.lookup oty.name).isSome = true by simpa [precondArgOk] using ho)
      have hreg := convertType_lookup_hit oty st v hv
      simp only [convertEffectParams, hreg, ih hrest, precondArgsOf, List.filterMap_cons]
    | fluentExp n as_ => simp [precondArgOk] at ho
    | andExp as_ => simp [precondArgOk] at ho
    | boolConstant b => simp [precondArgOk] at ho
    | notExp a => simp [precondArgOk] at ho
    | orExp as_ => simp [precondArgOk] at ho
    | equalsExp a b => simp [precondArgOk] at ho
    | intConstant v => simp [precondArgOk] at ho

theorem effectsAdds_cons_true (st : ConvState) (e : UPEffect) (rest : List UPEffect)
    (hv : e.value = FNode.boolConstant true) :
    effectsAdds st (e :: rest) = insert (effectPredOf st e) (effectsAdds st rest) := by
  simp only [effectsAdds, List.filter_cons, (isTrueValue_iff e.value).mpr hv, if_true,
    List.map_cons, List.toFinset_cons]

theorem effectsAdds_cons_ne (st : ConvState) (e : UPEffect) (rest : List UPEffect)
    (hv : e.value ≠ FNode.boolConstant true) :
    effectsAdds st (e :: rest) = effectsAdds st rest := by
  have hfalse : ((match e.value with | FNode.boolConstant b => b | _ => false)) = false := by
    cases h2 : (match e.value with | FNode.boolConstant b => b | _ => false) with
    | true => exact absurd ((isTrueValue_iff e.value).mp h2) hv
    | false => rfl
  simp only [effectsAdds, List.filter_cons, hfalse, Bool.false_eq_true, if_false]

theorem effectsDels_cons_false (st : ConvState) (e : UPEffect) (rest : List UPEffect)
    (hv : e.value = FNode.boolConstant false) :
    effectsDels st (e :: rest) = insert (effectPredOf st e) (effectsDels st rest) := by
  simp only [effectsDels, List.filter_cons, (isFalseValue_iff e.value).mpr hv, if_true,
    List.map_cons, List.toFinset_cons]

theorem effectsDels_cons_ne (st : ConvState) (e : UPEffect) (rest : List UPEffect)
    (hv : e.value ≠ FNode.boolConstant false) :
    effectsDels st (e :: rest) = effectsDels st rest := by
  have hfalse : ((match e.value with | FNode.boolConstant b => !b | _ => false)) = false := by
    cases h2 : (match e.value with | FNode.boolConstant b => !b | _ => false) with
    | true => exact absurd ((isFalseValue_iff e.value).mp h2) hv
    | false => rfl
  simp only [effectsDels, List.filter_cons, hfalse, Bool.false_eq_true, if_false]

theorem convertEffects_ok (st : ConvState) :
    ∀ (es : List UPEffect), es.all (goodEffect st) = true →
      convertEffects es st = .ok ((effectsAdds st es, effectsDels st es), st) := by
  intro es
  induction es with
  | nil => intro _; simp [convertEffects, effectsAdds, effectsDels]
  | cons e rest ih =>
    intro h
    simp only [List.all_cons, Bool.and_eq_true] at h
    obtain ⟨he, hrest⟩ := h
    obtain ⟨fl, val, cond⟩ := e
    simp only [goodEffect, Bool.and_eq_true, Bool.not_eq_true'] at he
    obtain ⟨⟨hcond, hbool⟩, hshape⟩ := he
    cases fl with
    | fluentExp n fargs =>
      cases val with
      | boolConstant b =>
        have hargs : fargs.all (precondArgOk st) = true := by simpa using hshape
        cases b with
        | true =>
          rw [effectsAdds_cons_true st _ rest rfl, effectsDels_cons_ne st _ rest (by simp)]
          simp only [convertEffects, FNode.args, hcond, FNode.boolConstantValue,
            FNode.fluentName, convertEffectParams_ok st fargs hargs, ih hrest]
          simp [effectPredOf, precondPredOf_fluent]
        | false =>
          rw [effectsAdds_cons_ne st _ rest (by simp), effectsDels_cons_false st _ rest rfl]
          simp only [convertEffects, FNode.args, hcond, FNode.boolConstantValue,
            FNode.fluentName, convertEffectParams_ok st fargs hargs, ih hrest]
          simp [effectPredOf, precondPredOf_fluent]
      | fluentExp a l => simp [FNode.isBoolConstant] at hbool
      | andExp l => simp [FNode.isBoolConstant] at hbool
      | paramExp a b2 => simp [FNode.isBoolConstant] at hbool
      | objectExp a b2 => simp [FNode.isBoolConstant] at hbool
      | notExp a => simp [FNode.isBoolConstant] at hbool
      | orExp l => simp [FNode.isBoolConstant] at hbool
      | equalsExp a b2 => simp [FNode.isBoolConstant] at hbool
      | intConstant i => simp [FNode.isBoolConstant] at hbool
    | andExp l => simp at hshape
    | paramExp a b2 => simp at hshape
    | objectExp a b2 => simp at hshape
    | boolConstant b2 => simp at hshape
    | notExp a => simp at hshape
    | orExp l => simp at hshape
    | equalsExp a b2 => simp at hshape
    | intConstant i => simp at hshape

/-- **C4.** The effect partition is exhaustive and disjoint per effect: the
effect loop of `_convert_action` succeeds on well-shaped effects and
produces exactly the add set holding the templates of the effects whose
target value is true and the delete set holding the templates of the
effects whose target value is false; every effect's template therefore
lands in the union, it lands in the add set exactly when its value is true
and in the delete set exactly when its value is false, and duplicates
collapse because the two collections are sets; the assembled action carries
precisely these two sets. -/
theorem claim_C4 (st : ConvState) (es : List UPEffect)
    (h : es.all (goodEffect st) = true) :
    convertEffects es st = .ok ((effectsAdds st es, effectsDels st es), st) ∧
    (∀ p : Predicate,
      p ∈ effectsAdds st es ↔
        ∃ e ∈ es, e.value = FNode.boolConstant true ∧ effectPredOf st e = p) ∧
    (∀ p : Predicate,
      p ∈ effectsDels st es ↔
        ∃ e ∈ es, e.value = FNode.boolConstant false ∧ effectPredOf st e = p) ∧
    (∀ e ∈ es,
      (e.value = FNode.boolConstant true → effectPredOf st e ∈ effectsAdds st es) ∧
      (e.value = FNode.boolConstant false → effectPredOf st e ∈ effectsDels st es) ∧
      effectPredOf st e ∈ effectsAdds st es ∪ effectsDels st es) ∧
    (∀ (a : UPAction) (sig : List (String × SigType)) (ps : List Predicate),
      a.effects = es →
      convertActSign a.parameters st = (sig, st) →
      flattenPrecondList a.name a.preconditions st = .ok (ps, st) →
      convertAction a st =
        .ok (⟨a.name, sig, ps, ⟨effectsAdds st es, effectsDels st es⟩⟩, st)) := by
  have hadds : ∀ p : Predicate,
      p ∈ effectsAdds st es ↔
        ∃ e ∈ es, e.value = FNode.boolConstant true ∧ effectPredOf st e = p := by
    intro p
    simp only [effectsAdds, List.mem_toFinset, List.mem_map, List.mem_filter]
    constructor
    · rintro ⟨e, ⟨hmem, hcondn⟩, hpred⟩
      exact ⟨e, hmem, (isTrueValue_iff e.value).mp hcondn, hpred⟩
    · rintro ⟨e, hmem, hval, hpred⟩
      exact ⟨e, ⟨hmem, (isTrueValue_iff e.value).mpr hval⟩, hpred⟩
  have hdels : ∀ p : Predicate,
      p ∈ effectsDels st es ↔
        ∃ e ∈ es, e.value = FNode.boolConstant false ∧ effectPredOf st e = p := by
    intro p
    simp only [effectsDels, List.mem_toFinset, List.mem_map, List.mem_filter]
    constructor
    · rintro ⟨e, ⟨hmem, hcondn⟩, hpred⟩
      exact ⟨e, hmem, (isFalseValue_iff e.value).mp hcondn, hpred⟩
    · rintro ⟨e, hmem, hval, hpred⟩
      exact ⟨e, ⟨hmem, (isFalseValue_iff e.value).mpr hval⟩, hpred⟩
  refine ⟨convertEffects_ok st es h, hadds, hdels, ?_, ?_⟩
  · intro e hmem
    have hgood : goodEffect st e = true := by
      have := List.all_eq_true.mp h e hmem
      simpa using this
    have hbool : e.value.isBoolConstant = true := by
      simp only [goodEffect, Bool.and_eq_true] at hgood
      exact hgood.1.2
    have hcases : e.value = FNode.boolConstant true ∨ e.value = FNode.boolConstant false := by
      cases hv : e.value with
      | boolConstant b =>
        cases b with
        | false => right; rfl
        | true => left; rfl
      | fluentExp n l => simp [hv, FNode.isBoolConstant] at hbool
      | andExp l => simp [hv, FNode.isBoolConstant] at hbool
      | paramExp a b2 => simp [hv, FNode.isBoolConstant] at hbool
      | objectExp a b2 => simp [hv, FNode.isBoolConstant] at hbool
      | notExp a => simp [hv, FNode.isBoolConstant] at hbool
      | orExp l => simp [hv, FNode.isBoolConstant] at hbool
      | equalsExp a b2 => simp [hv, FNode.isBoolConstant] at hbool
      | intConstant i => simp [hv, FNode.isBoolConstant] at hbool
    refine ⟨?_, ?_, ?_⟩
    · intro hv; exact (hadds _).mpr ⟨e, hmem, hv, rfl⟩
    · intro hv; exact (hdels _).mpr ⟨e, hmem, hv, rfl⟩
    · rcases hcases with hv | hv
      · exact Finset.mem_union_left _ ((hadds _).mpr ⟨e, hmem, hv, rfl⟩)
      · exact Finset.mem_union_right _ ((hdels _).mpr ⟨e, hmem, hv, rfl⟩)
  · intro a sig ps heff hsig hps
    simp only [convertAction, hsig, hps, heff, convertEffects_ok st es h]

theorem claim_C4_witness :
    convertEffects egMove.effects egSt =
      .ok ((effectsAdds egSt egMove.effects, effectsDels egSt egMove.effects), egSt) ∧
    effectsAdds egSt egMove.effects = {⟨"at", [("to", .tuple1 egRoomT)]⟩} ∧
    effectsDels egSt egMove.effects = {⟨"at", [("from", .tuple1 egRoomT)]⟩} := by
  refine ⟨(claim_C4 egSt egMove.effects (by decide)).1, ?_, ?_⟩
  · simp [effectsAdds, egMove, egRoom, effectPredOf, precondPredOf, convertType,
      ConvState.lookup, lookupL, egSt, egObjT, egRoomT]
  · simp [effectsDels, egMove, egRoom, effectPredOf, precondPredOf, convertType,
      ConvState.lookup, lookupL, egSt, egObjT, egRoomT]

/-! ### The expression flatteners (claims C5 and C6) -/

/-- The signature entries a goal fluent stores. -/
def goalArgsOf (st : ConvState) (l : List FNode) : List (String × SigType) :=
  l.filterMap (fun o =>
    match o with
    | FNode.objectExp oname oty => some (oname, SigType.tuple1 (convertType oty st).1)
    | _ => none)

theorem goalPredOf_fluent (st : ConvState) (n : String) (fargs : List FNode) :
    goalPredOf st (.fluentExp n fargs) = ⟨n, goalArgsOf st fargs⟩ := rfl

theorem reaches_of_not_and {x y : FNode} (h : Reaches x y) (hx : x.isAnd = false) :
    y = x := by
  cases h with
  | refl => rfl
  | viaAnd hy h2 => simp [FNode.isAnd] at hx

theorem reaches_and_iff (args : List FNode) (y : FNode) :
    Reaches (.andExp args) y ↔ y = .andExp args ∨ ∃ a ∈ args, Reaches a y := by
  constructor
  · intro h
    cases h with
    | refl => exact Or.inl rfl
    | viaAnd hy h2 => exact Or.inr ⟨_, hy, h2⟩
  · rintro (rfl | ⟨a, ha, h⟩)
    · exact .refl _
    · exact .viaAnd ha h

theorem conjOnlyList_eq_all (l : List FNode) : conjOnlyList l = l.all conjOnly := by
  induction l with
  | nil => rfl
  | cons x l ih => simp [conjOnlyList, ih]

theorem goalShapeOkList_eq_all (st : ConvState) (l : List FNode) :
    goalShapeOkList st l = l.all (goalShapeOk st) := by
  induction l with
  | nil => rfl
  | cons x l ih => simp [goalShapeOkList, ih]

theorem goalArgsBelowOkList_eq_all (st : ConvState) (l : List FNode) :
    goalArgsBelowOkList st l = l.all (goalArgsBelowOk st) := by
  induction l with
  | nil => rfl
  | cons x l ih => simp [goalArgsBelowOkList, ih]

theorem convertGoalArgs_ok (st : ConvState) :
    ∀ (l : List FNode), l.all (goalArgOk st) = true →
      convertGoalArgs l st = .ok (goalArgsOf st l, st) := by
  intro l
  induction l with
  | nil => intro _; simp [convertGoalArgs, goalArgsOf]
  | cons o rest ih =>
    intro h
    simp only [List.all_cons, Bool.and_eq_true] at h
    obtain ⟨ho, hrest⟩ := h
    cases o with
    | objectExp oname oty =>
      obtain ⟨v, hv⟩ := Option.isSome_iff_exists.mp
        (show (st.lookup oty.name).isSome = true by simpa [goalArgOk] using ho)
      have hreg := convertType_lookup_hit oty st v hv
      simp only [convertGoalArgs, FNode.object, hreg, ih hrest, goalArgsOf,
        List.filterMap_cons]
    | fluentExp n as_ => simp [goalArgOk] at ho
    | andExp as_ => simp [goalArgOk] at ho
    | paramExp pn pt => simp [goalArgOk] at ho
    | boolConstant b => simp [goalArgOk] at ho
    | notExp a => simp [goalArgOk] at ho
    | orExp as_ => simp [goalArgOk] at ho
    | equalsExp a b => simp [goalArgOk] at ho
    | intConstant v => simp [goalArgOk] at ho

theorem flattenGoal_ok (pname : String) (st : ConvState) :
    ∀ (l : List FNode), goalShapeOkList st l = true →
      ∃ ps, flattenGoal pname l st = .ok (ps, st) ∧
        (∀ p : Predicate, p ∈ ps ↔
          ∃ x ∈ l, ∃ y, Reaches x y ∧ y.isFluentExp = true ∧ goalPredOf st y = p)
  | [], _ => ⟨[], by simp [flattenGoal], by simp⟩
  | .fluentExp n fargs :: stack, h => by
    have hx : goalShapeOk st (.fluentExp n fargs) = true ∧ goalShapeOkList st stack = true := by
      simpa [goalShapeOkList, Bool.and_eq_true] using h
    obtain ⟨hx1, hstack⟩ := hx
    have hargs : fargs.all (goalArgOk st) = true := by simpa [goalShapeOk] using hx1
    obtain ⟨ps', hps', hiff⟩ := flattenGoal_ok pname st stack hstack
    refine ⟨⟨n, goalArgsOf st fargs⟩ :: ps', ?_, ?_⟩
    · simp only [flattenGoal, convertGoalArgs_ok st fargs hargs, hps']
    · intro p
      simp only [List.mem_cons, hiff]
      constructor
      · rintro (rfl | ⟨x, hxm, y, hy, hfl, hp⟩)
        · exact ⟨.fluentExp n fargs, by simp, .fluentExp n fargs, .refl _,
            by simp [FNode.isFluentExp], (goalPredOf_fluent st n fargs)⟩
        · exact ⟨x, by simp [hxm], y, hy, hfl, hp⟩
      · rintro ⟨x, hxm, y, hy, hfl, hp⟩
        rcases hxm with rfl | hxs
        · have hyx : y = FNode.fluentExp n fargs :=
            reaches_of_not_and hy (by simp [FNode.isAnd])
          subst hyx
          exact Or.inl ((goalPredOf_fluent st n fargs ▸ hp).symm)
        · exact Or.inr ⟨x, hxs, y, hy, hfl, hp⟩
  | .andExp aargs :: stack, h => by
    have hx : goalShapeOk st (.andExp aargs) = true ∧ goalShapeOkList st stack = true := by
      simpa [goalShapeOkList, Bool.and_eq_true] using h
    obtain ⟨hx1, hstack⟩ := hx
    have haargs : goalShapeOkList st aargs = true := by simpa [goalShapeOk] using hx1
    have hcomb : goalShapeOkList st (aargs.reverse ++ stack) = true := by
      rw [goalShapeOkList_eq_all] at haargs hstack ⊢
      simp [List.all_append, haargs, hstack]
    obtain ⟨ps, hps, hiff⟩ := flattenGoal_ok pname st (aargs.reverse ++ stack) hcomb
    refine ⟨ps, by simp only [flattenGoal]; exact hps, ?_⟩
    intro p
    rw [hiff]
    constructor
    · rintro ⟨x, hxm, y, hy, hfl, hp⟩
      rcases List.mem_append.mp hxm with hxa | hxs
      · exact ⟨.andExp aargs, by simp,
          y, .viaAnd (List.mem_reverse.mp hxa) hy, hfl, hp⟩
      · exact ⟨x, by simp [hxs], y, hy, hfl, hp⟩
    · rintro ⟨x, hxm, y, hy, hfl, hp⟩
      rcases List.mem_cons.mp hxm with rfl | hxs
      · rcases (reaches_and_iff aargs y).mp hy with rfl | ⟨a, ha, hr⟩
        · simp [FNode.isFluentExp] at hfl
        · exact ⟨a, List.mem_append.mpr (.inl (List.mem_reverse.mpr ha)), y, hr, hfl, hp⟩
      · exact ⟨x, List.mem_append.mpr (.inr hxs), y, hy, hfl, hp⟩
  | .paramExp a b :: stack, h => by simp [goalShapeOkList, goalShapeOk] at h
  | .objectExp a b :: stack, h => by simp [goalShapeOkList, goalShapeOk] at h
  | .boolConstant b :: stack, h => by simp [goalShapeOkList, goalShapeOk] at h
  | .notExp a :: stack, h => by simp [goalShapeOkList, goalShapeOk] at h
  | .orExp l2 :: stack, h => by simp [goalShapeOkList, goalShapeOk] at h
  | .equalsExp a b :: stack, h => by simp [goalShapeOkList, goalShapeOk] at h
  | .intConstant v :: stack, h => by simp [goalShapeOkList, goalShapeOk] at h
termination_by l => fsizeL l
decreasing_by
  all_goals simp [fsizeL, fsizeL_append, fsizeL_reverse, fsize]
  all_goals omega

theorem flattenGoal_reject (pname : String) (st : ConvState) :
    ∀ (l : List FNode), goalArgsBelowOkList st l = true → conjOnlyList l = false →
      ∃ y, (∃ x ∈ l, Reaches x y) ∧ y.isFluentExp = false ∧ y.isAnd = false ∧
        flattenGoal pname l st = .error (.unsupportedProblemType (goalOperandMsg pname y))
  | [], _, h => by simp [conjOnlyList] at h
  | .fluentExp n fargs :: stack, hargsb, hconj => by
    have hstackc : conjOnlyList stack = false := by
      simpa [conjOnlyList, conjOnly] using hconj
    have hb : goalArgsBelowOk st (.fluentExp n fargs) = true ∧
        goalArgsBelowOkList st stack = true := by
      simpa [goalArgsBelowOkList, Bool.and_eq_true] using hargsb
    have hargs : fargs.all (goalArgOk st) = true := by
      simpa [goalArgsBelowOk] using hb.1
    obtain ⟨y, ⟨x, hxm, hr⟩, hfl, hand, herr⟩ :=
      flattenGoal_reject pname st stack hb.2 hstackc
    refine ⟨y, ⟨x, by simp [hxm], hr⟩, hfl, hand, ?_⟩
    simp only [flattenGoal, convertGoalArgs_ok st fargs hargs, herr]
  | .andExp aargs :: stack, hargsb, hconj => by
    have hb : goalArgsBelowOkList st aargs = true ∧ goalArgsBelowOkList st stack = true := by
      simpa [goalArgsBelowOkList, goalArgsBelowOk, Bool.and_eq_true] using hargsb
    have hstackb : stack.all (goalArgsBelowOk st) = true := by
      rw [← goalArgsBelowOkList_eq_all]; exact hb.2
    have haargsb : aargs.all (goalArgsBelowOk st) = true := by
      rw [← goalArgsBelowOkList_eq_all]; exact hb.1
    have hcombb : goalArgsBelowOkList st (aargs.reverse ++ stack) = true := by
      simp [goalArgsBelowOkList_eq_all, List.all_append, List.all_reverse, haargsb, hstackb]
    have hconj2 : (conjOnlyList aargs && conjOnlyList stack) = false := by
      simpa [conjOnlyList, conjOnly] using hconj
    have hcombc : conjOnlyList (aargs.reverse ++ stack) = false := by
      rw [conjOnlyList_eq_all, List.all_append, List.all_reverse,
        ← conjOnlyList_eq_all, ← conjOnlyList_eq_all]
      exact hconj2
    obtain ⟨y, ⟨x, hxm, hr⟩, hfl, hand, herr⟩ :=
      flattenGoal_reject pname st (aargs.reverse ++ stack) hcombb hcombc
    refine ⟨y, ?_, hfl, hand, by simp only [flattenGoal]; exact herr⟩
    rcases List.mem_append.mp hxm with hxa | hxs
    · exact ⟨.andExp aargs, by simp, .viaAnd (List.mem_reverse.mp hxa) hr⟩
    · exact ⟨x, by simp [hxs], hr⟩
  | .paramExp a b :: stack, _, _ =>
    ⟨.paramExp a b, ⟨.paramExp a b, by simp, .refl _⟩, rfl, rfl, by simp [flattenGoal]⟩
  | .objectExp a b :: stack, _, _ =>
    ⟨.objectExp a b, ⟨.objectExp a b, by simp, .refl _⟩, rfl, rfl, by simp [flattenGoal]⟩
  | .boolConstant b :: stack, _, _ =>
    ⟨.boolConstant b, ⟨.boolConstant b, by simp, .refl _⟩, rfl, rfl, by simp [flattenGoal]⟩
  | .notExp a :: stack, _, _ =>
    ⟨.notExp a, ⟨.notExp a, by simp, .refl _⟩, rfl, rfl, by simp [flattenGoal]⟩
  | .orExp l2 :: stack, _, _ =>
    ⟨.orExp l2, ⟨.orExp l2, by simp, .refl _⟩, rfl, rfl, by simp [flattenGoal]⟩
  | .equalsExp a b :: stack, _, _ =>
    ⟨.equalsExp a b, ⟨.equalsExp a b, by simp, .refl _⟩, rfl, rfl, by simp [flattenGoal]⟩
  | .intConstant v :: stack, _, _ =>
    ⟨.intConstant v, ⟨.intConstant v, by simp, .refl _⟩, rfl, rfl, by simp [flattenGoal]⟩
termination_by l => fsizeL l
decreasing_by
  all_goals simp [fsizeL, fsizeL_append, fsizeL_reverse, fsize]
  all_goals omega

theorem convertGoalList_ok (pname : String) (st : ConvState) :
    ∀ (gs : List FNode), gs.all (goalShapeOk st) = true →
      ∃ ps, convertGoalList pname gs st = .ok (ps, st) ∧
        (∀ p : Predicate, p ∈ ps ↔
          ∃ g ∈ gs, ∃ y, Reaches g y ∧ y.isFluentExp = true ∧ goalPredOf st y = p) := by
  intro gs
  induction gs with
  | nil => intro _; exact ⟨[], by simp [convertGoalList], by simp⟩
  | cons g gs ih =>
    intro h
    simp only [List.all_cons, Bool.and_eq_true] at h
    obtain ⟨hg, hgs⟩ := h
    have hone : goalShapeOkList st [g] = true := by
      simp [goalShapeOkList, hg]
    obtain ⟨ps1, hps1, hiff1⟩ := flattenGoal_ok pname st [g] hone
    obtain ⟨ps2, hps2, hiff2⟩ := ih hgs
    refine ⟨ps1 ++ ps2, by simp only [convertGoalList, hps1, hps2], ?_⟩
    intro p
    simp only [List.mem_append, hiff1, hiff2]
    constructor
    · rintro (⟨x, hxm, y, hy, hfl, hp⟩ | ⟨g2, hgm, y, hy, hfl, hp⟩)
      · rcases List.mem_singleton.mp hxm with rfl
        exact ⟨x, by simp, y, hy, hfl, hp⟩
      · exact ⟨g2, by simp [hgm], y, hy, hfl, hp⟩
    · rintro ⟨g2, hgm, y, hy, hfl, hp⟩
      rcases List.mem_cons.mp hgm with rfl | hgs2
      · exact Or.inl ⟨g2, by simp, y, hy, hfl, hp⟩
      · exact Or.inr ⟨g2, hgs2, y, hy, hfl, hp⟩

theorem convertGoalList_reject (pname : String) (st : ConvState) :
    ∀ (pre : List FNode) (g : FNode) (post : List FNode),
      pre.all (goalShapeOk st) = true →
      goalArgsBelowOk st g = true →
      conjOnly g = false →
      ∃ y, Reaches g y ∧ y.isFluentExp = false ∧ y.isAnd = false ∧
        convertGoalList pname (pre ++ g :: post) st =
          .error (.unsupportedProblemType (goalOperandMsg pname y)) := by
  intro pre
  induction pre with
  | nil =>
    intro g post _ hargsb hconj
    have h1 : goalArgsBelowOkList st [g] = true := by
      simp [goalArgsBelowOkList, hargsb]
    have h2 : conjOnlyList [g] = false := by
      simp [conjOnlyList, hconj]
    obtain ⟨y, ⟨x, hxm, hr⟩, hfl, hand, herr⟩ := flattenGoal_reject pname st [g] h1 h2
    rcases List.mem_singleton.mp hxm with rfl
    exact ⟨y, hr, hfl, hand, by simp only [List.nil_append, convertGoalList, herr]⟩
  | cons g0 pre ih =>
    intro g post h hargsb hconj
    simp only [List.all_cons, Bool.and_eq_true] at h
    obtain ⟨hg0, hpre⟩ := h
    have hone : goalShapeOkList st [g0] = true := by simp [goalShapeOkList, hg0]
    obtain ⟨ps1, hps1, _⟩ := flattenGoal_ok pname st [g0] hone
    obtain ⟨y, hr, hfl, hand, herr⟩ := ih g post hpre hargsb hconj
    exact ⟨y, hr, hfl, hand, by simp [convertGoalList, hps1, herr]⟩

/-! Precondition analogues of the goal-flattening lemmas. -/

theorem precondShapeOkList_eq_all (st : ConvState) (l : List FNode) :
    precondShapeOkList st l = l.all (precondShapeOk st) := by
  induction l with
  | nil => rfl
  | cons x l ih => simp [precondShapeOkList, ih]

theorem precondArgsBelowOkList_eq_all (st : ConvState) (l : List FNode) :
    precondArgsBelowOkList st l = l.all (precondArgsBelowOk st) := by
  induction l with
  | nil => rfl
  | cons x l ih => simp [precondArgsBelowOkList, ih]

theorem convertPrecondArgs_ok (st : ConvState) :
    ∀ (l : List FNode), l.all (precondArgOk st) = true →
      convertPrecondArgs l st = .ok (precondArgsOf st l, st) := by
  intro l
  induction l with
  | nil => intro _; simp [convertPrecondArgs, precondArgsOf]
  | cons o rest ih =>
    intro h
    simp only [List.all_cons, Bool.and_eq_true] at h
    obtain ⟨ho, hrest⟩ := h
    cases o with
    | paramExp pn pt =>
      obtain ⟨v, hv⟩ := Option.isSome_iff_exists.mp
        (show (st.lookup pt.name).isSome = true by simpa [precondArgOk] using ho)
      have hreg := convertType_lookup_hit pt st v hv
      simp only [convertPrecondArgs, hreg, ih hrest, precondArgsOf, List.filterMap_cons]
    | objectExp oname oty =>
      obtain ⟨v, hv⟩ := Option.isSome_iff_exists.mp
        (show (st.lookup oty.name).isSome = true by simpa [precondArgOk] using ho)
      have hreg := convertType_lookup_hit oty st v hv
      simp only [convertPrecondArgs, hreg, ih hrest, precondArgsOf, List.filterMap_cons]
    | fluentExp n as_ => simp [precondArgOk] at ho
    | andExp as_ => simp [precondArgOk] at ho
    | boolConstant b => simp [precondArgOk] at ho
    | notExp a => simp [precondArgOk] at ho
    | orExp as_ => simp [precondArgOk] at ho
    | equalsExp a b => simp [precondArgOk] at ho
    | intConstant v => simp [precondArgOk] at ho

theorem flattenPrecond_ok (aname : String) (st : ConvState) :
    ∀ (l : List FNode), precondShapeOkList st l = true →
      ∃ ps, flattenPrecond aname l st = .ok (ps, st) ∧
        (∀ p : Predicate, p ∈ ps ↔
          ∃ x ∈ l, ∃ y, Reaches x y ∧ y.isFluentExp = true ∧ precondPredOf st y = p)
  | [], _ => ⟨[], by simp [flattenPrecond], by simp⟩
  | .fluentExp n fargs :: stack, h => by
    have hx : precondShapeOk st (.fluentExp n fargs) = true ∧
        precondShapeOkList st stack = true := by
      simpa [precondShapeOkList, Bool.and_eq_true] using h
    obtain ⟨hx1, hstack⟩ := hx
    have hargs : fargs.all (precondArgOk st) = true := by simpa [precondShapeOk] using hx1
    obtain ⟨ps', hps', hiff⟩ := flattenPrecond_ok aname st stack hstack
    refine ⟨⟨n, precondArgsOf st fargs⟩ :: ps', ?_, ?_⟩
    · simp only [flattenPrecond, convertPrecondArgs_ok st fargs hargs, hps']
    · intro p
      simp only [List.mem_cons, hiff]
      constructor
      · rintro (rfl | ⟨x, hxm, y, hy, hfl, hp⟩)
        · exact ⟨.fluentExp n fargs, by simp, .fluentExp n fargs, .refl _,
            by simp [FNode.isFluentExp], (precondPredOf_fluent st n fargs)⟩
        · exact ⟨x, by simp [hxm], y, hy, hfl, hp⟩
      · rintro ⟨x, hxm, y, hy, hfl, hp⟩
        rcases hxm with rfl | hxs
        · have hyx : y = FNode.fluentExp n fargs :=
            reaches_of_not_and hy (by simp [FNode.isAnd])
          subst hyx
          exact Or.inl ((precondPredOf_fluent st n fargs ▸ hp).symm)
        · exact Or.inr ⟨x, hxs, y, hy, hfl, hp⟩
  | .andExp aargs :: stack, h => by
    have hx : precondShapeOk st (.andExp aargs) = true ∧
        precondShapeOkList st stack = true := by
      simpa [precondShapeOkList, Bool.and_eq_true] using h
    obtain ⟨hx1, hstack⟩ := hx
    have haargs : precondShapeOkList st aargs = true := by simpa [precondShapeOk] using hx1
    have hcomb : precondShapeOkList st (aargs.reverse ++ stack) = true := by
      have h1 : aargs.all (precondShapeOk st) = true := by
        rw [← precondShapeOkList_eq_all]; exact haargs
      have h2 : stack.all (precondShapeOk st) = true := by
        rw [← precondShapeOkList_eq_all]; exact hstack
      simp [precondShapeOkList_eq_all, List.all_append, List.all_reverse, h1, h2]
    obtain ⟨ps, hps, hiff⟩ := flattenPrecond_ok aname st (aargs.reverse ++ stack) hcomb
    refine ⟨ps, by simp only [flattenPrecond]; exact hps, ?_⟩
    intro p
    rw [hiff]
    constructor
    · rintro ⟨x, hxm, y, hy, hfl, hp⟩
      rcases List.mem_append.mp hxm with hxa | hxs
      · exact ⟨.andExp aargs, by simp,
          y, .viaAnd (List.mem_reverse.mp hxa) hy, hfl, hp⟩
      · exact ⟨x, by simp [hxs], y, hy, hfl, hp⟩
    · rintro ⟨x, hxm, y, hy, hfl, hp⟩
      rcases List.mem_cons.mp hxm with rfl | hxs
      · rcases (reaches_and_iff aargs y).mp hy with rfl | ⟨a, ha, hr⟩
        · simp [FNode.isFluentExp] at hfl
        · exact ⟨a, List.mem_append.mpr (.inl (List.mem_reverse.mpr ha)), y, hr, hfl, hp⟩
      · exact ⟨x, List.mem_append.mpr (.inr hxs), y, hy, hfl, hp⟩
  | .paramExp a b :: stack, h => by simp [precondShapeOkList, precondShapeOk] at h
  | .objectExp a b :: stack, h => by simp [precondShapeOkList, precondShapeOk] at h
  | .boolConstant b :: stack, h => by simp [precondShapeOkList, precondShapeOk] at h
  | .notExp a :: stack, h => by simp [precondShapeOkList, precondShapeOk] at h
  | .orExp l2 :: stack, h => by simp [precondShapeOkList, precondShapeOk] at h
  | .equalsExp a b :: stack, h => by simp [precondShapeOkList, precondShapeOk] at h
  | .intConstant v :: stack, h => by simp [precondShapeOkList, precondShapeOk] at h
termination_by l => fsizeL l
decreasing_by
  all_goals simp [fsizeL, fsizeL_append, fsizeL_reverse, fsize]
  all_goals omega

theorem flattenPrecond_reject (aname : String) (st : ConvState) :
    ∀ (l : List FNode), precondArgsBelowOkList st l = true → conjOnlyList l = false →
      ∃ y, (∃ x ∈ l, Reaches x y) ∧ y.isFluentExp = false ∧ y.isAnd = false ∧
        flattenPrecond aname l st = .error (.unsupportedProblemType (precondMsg y aname))
  | [], _, h => by simp [conjOnlyList] at h
  | .fluentExp n fargs :: stack, hargsb, hconj => by
    have hstackc : conjOnlyList stack = false := by
      simpa [conjOnlyList, conjOnly] using hconj
    have hb : precondArgsBelowOk st (.fluentExp n fargs) = true ∧
        precondArgsBelowOkList st stack = true := by
      simpa [precondArgsBelowOkList, Bool.and_eq_true] using hargsb
    have hargs : fargs.all (precondArgOk st) = true := by
      simpa [precondArgsBelowOk] using hb.1
    obtain ⟨y, ⟨x, hxm, hr⟩, hfl, hand, herr⟩ :=
      flattenPrecond_reject aname st stack hb.2 hstackc
    refine ⟨y, ⟨x, by simp [hxm], hr⟩, hfl, hand, ?_⟩
    simp only [flattenPrecond, convertPrecondArgs_ok st fargs hargs, herr]
  | .andExp aargs :: stack, hargsb, hconj => by
    have hb : precondArgsBelowOkList st aargs = true ∧
        precondArgsBelowOkList st stack = true := by
      simpa [precondArgsBelowOkList, precondArgsBelowOk, Bool.and_eq_true] using hargsb
    have hstackb : stack.all (precondArgsBelowOk st) = true := by
      rw [← precondArgsBelowOkList_eq_all]; exact hb.2
    have haargsb : aargs.all (precondArgsBelowOk st) = true := by
      rw [← precondArgsBelowOkList_eq_all]; exact hb.1
    have hcombb : precondArgsBelowOkList st (aargs.reverse ++ stack) = true := by
      simp [precondArgsBelowOkList_eq_all, List.all_append, List.all_reverse, haargsb,
        hstackb]
    have hconj2 : (conjOnlyList aargs && conjOnlyList stack) = false := by
      simpa [conjOnlyList, conjOnly] using hconj
    have hcombc : conjOnlyList (aargs.reverse ++ stack) = false := by
      rw [conjOnlyList_eq_all, List.all_append, List.all_reverse,
        ← conjOnlyList_eq_all, ← conjOnlyList_eq_all]
      exact hconj2
    obtain ⟨y, ⟨x, hxm, hr⟩, hfl, hand, herr⟩ :=
      flattenPrecond_reject aname st (aargs.reverse ++ stack) hcombb hcombc
    refine ⟨y, ?_, hfl, hand, by simp only [flattenPrecond]; exact herr⟩
    rcases List.mem_append.mp hxm with hxa | hxs
    · exact ⟨.andExp aargs, by simp, .viaAnd (List.mem_reverse.mp hxa) hr⟩
    · exact ⟨x, by simp [hxs], hr⟩
  | .paramExp a b :: stack, _, _ =>
    ⟨.paramExp a b, ⟨.paramExp a b, by simp, .refl _⟩, rfl, rfl, by simp [flattenPrecond]⟩
  | .objectExp a b :: stack, _, _ =>
    ⟨.objectExp a b, ⟨.objectExp a b, by simp, .refl _⟩, rfl, rfl, by simp [flattenPrecond]⟩
  | .boolConstant b :: stack, _, _ =>
    ⟨.boolConstant b, ⟨.boolConstant b, by simp, .refl _⟩, rfl, rfl, by simp [flattenPrecond]⟩
  | .notExp a :: stack, _, _ =>
    ⟨.notExp a, ⟨.notExp a, by simp, .refl _⟩, rfl, rfl, by simp [flattenPrecond]⟩
  | .orExp l2 :: stack, _, _ =>
    ⟨.orExp l2, ⟨.orExp l2, by simp, .refl _⟩, rfl, rfl, by simp [flattenPrecond]⟩
  | .equalsExp a b :: stack, _, _ =>
    ⟨.equalsExp a b, ⟨.equalsExp a b, by simp, .refl _⟩, rfl, rfl, by simp [flattenPrecond]⟩
  | .intConstant v :: stack, _, _ =>
    ⟨.intConstant v, ⟨.intConstant v, by simp, .refl _⟩, rfl, rfl, by simp [flattenPrecond]⟩
termination_by l => fsizeL l
decreasing_by
  all_goals simp [fsizeL, fsizeL_append, fsizeL_reverse, fsize]
  all_goals omega

theorem flattenPrecondList_ok (aname : String) (st : ConvState) :
    ∀ (gs : List FNode), gs.all (precondShapeOk st) = true →
      ∃ ps, flattenPrecondList aname gs st = .ok (ps, st) ∧
        (∀ p : Predicate, p ∈ ps ↔
          ∃ g ∈ gs, ∃ y, Reaches g y ∧ y.isFluentExp = true ∧ precondPredOf st y = p) := by
  intro gs
  induction gs with
  | nil => intro _; exact ⟨[], by simp [flattenPrecondList], by simp⟩
  | cons g gs ih =>
    intro h
    simp only [List.all_cons, Bool.and_eq_true] at h
    obtain ⟨hg, hgs⟩ := h
    have hone : precondShapeOkList st [g] = true := by
      simp [precondShapeOkList, hg]
    obtain ⟨ps1, hps1, hiff1⟩ := flattenPrecond_ok aname st [g] hone
    obtain ⟨ps2, hps2, hiff2⟩ := ih hgs
    refine ⟨ps1 ++ ps2, by simp only [flattenPrecondList, hps1, hps2], ?_⟩
    intro p
    simp only [List.mem_append, hiff1, hiff2]
    constructor
    · rintro (⟨x, hxm, y, hy, hfl, hp⟩ | ⟨g2, hgm, y, hy, hfl, hp⟩)
      · rcases List.mem_singleton.mp hxm with rfl
        exact ⟨x, by simp, y, hy, hfl, hp⟩
      · exact ⟨g2, by simp [hgm], y, hy, hfl, hp⟩
    · rintro ⟨g2, hgm, y, hy, hfl, hp⟩
      rcases List.mem_cons.mp hgm with rfl | hgs2
      · exact Or.inl ⟨g2, by simp, y, hy, hfl, hp⟩
      · exact Or.inr ⟨g2, hgs2, y, hy, hfl, hp⟩

theorem flattenPrecondList_reject (aname : String) (st : ConvState) :
    ∀ (pre : List FNode) (g : FNode) (post : List FNode),
      pre.all (precondShapeOk st) = true →
      precondArgsBelowOk st g = true →
      conjOnly g = false →
      ∃ y, Reaches g y ∧ y.isFluentExp = false ∧ y.isAnd = false ∧
        flattenPrecondList aname (pre ++ g :: post) st =
          .error (.unsupportedProblemType (precondMsg y aname)) := by
  intro pre
  induction pre with
  | nil =>
    intro g post _ hargsb hconj
    have h1 : precondArgsBelowOkList st [g] = true := by
      simp [precondArgsBelowOkList, hargsb]
    have h2 : conjOnlyList [g] = false := by
      simp [conjOnlyList, hconj]
    obtain ⟨y, ⟨x, hxm, hr⟩, hfl, hand, herr⟩ := flattenPrecond_reject aname st [g] h1 h2
    rcases List.mem_singleton.mp hxm with rfl
    exact ⟨y, hr, hfl, hand, by simp only [List.nil_append, flattenPrecondList, herr]⟩
  | cons g0 pre ih =>
    intro g post h hargsb hconj
    simp only [List.all_cons, Bool.and_eq_true] at h
    obtain ⟨hg0, hpre⟩ := h
    have hone : precondShapeOkList st [g0] = true := by simp [precondShapeOkList, hg0]
    obtain ⟨ps1, hps1, _⟩ := flattenPrecond_ok aname st [g0] hone
    obtain ⟨y, hr, hfl, hand, herr⟩ := ih g post hpre hargsb hconj
    exact ⟨y, hr, hfl, hand, by simp [flattenPrecondList, hps1, herr]⟩

/-- **C5.** Expression flattening, in problem goals and in action
preconditions alike, emits a predicate for every conjunction-reachable
fluent application and recurses through every conjunction (on success the
emitted predicate list holds exactly the templates of the reachable
fluents); and it rejects a goal or precondition containing any other
operator with the user-facing unsupported-expression
`UPUnsupportedProblemTypeError` whose message renders the offending
sub-expression together with its containing context — the problem's goals
or the action — rather than failing an internal assertion. -/
theorem claim_C5 :
    (∀ (pname : String) (st : ConvState) (gs : List FNode),
      gs.all (goalShapeOk st) = true →
      ∃ ps, convertGoalList pname gs st = .ok (ps, st) ∧
        (∀ g ∈ gs, ∀ y, Reaches g y → y.isFluentExp = true → goalPredOf st y ∈ ps) ∧
        (∀ p ∈ ps, ∃ g ∈ gs, ∃ y, Reaches g y ∧ y.isFluentExp = true ∧
          goalPredOf st y = p)) ∧
    (∀ (pname : String) (st : ConvState) (pre : List FNode) (g : FNode) (post : List FNode),
      pre.all (goalShapeOk st) = true →
      goalArgsBelowOk st g = true →
      conjOnly g = false →
      ∃ y, Reaches g y ∧ y.isFluentExp = false ∧ y.isAnd = false ∧
        convertGoalList pname (pre ++ g :: post) st =
          .error (.unsupportedProblemType (goalOperandMsg pname y))) ∧
    (∀ (aname : String) (st : ConvState) (ps0 : List FNode),
      ps0.all (precondShapeOk st) = true →
      ∃ ps, flattenPrecondList aname ps0 st = .ok (ps, st) ∧
        (∀ g ∈ ps0, ∀ y, Reaches g y → y.isFluentExp = true → precondPredOf st y ∈ ps) ∧
        (∀ p ∈ ps, ∃ g ∈ ps0, ∃ y, Reaches g y ∧ y.isFluentExp = true ∧
          precondPredOf st y = p)) ∧
    (∀ (aname : String) (st : ConvState) (pre : List FNode) (g : FNode) (post : List FNode),
      pre.all (precondShapeOk st) = true →
      precondArgsBelowOk st g = true →
      conjOnly g = false →
      ∃ y, Reaches g y ∧ y.isFluentExp = false ∧ y.isAnd = false ∧
        flattenPrecondList aname (pre ++ g :: post) st =
          .error (.unsupportedProblemType (precondMsg y aname))) := by
  refine ⟨?_, ?_, ?_, ?_⟩
  · intro pname st gs h
    obtain ⟨ps, hps, hiff⟩ := convertGoalList_ok pname st gs h
    refine ⟨ps, hps, ?_, fun p hp => (hiff p).mp hp⟩
    intro g hg y hr hfl
    exact (hiff _).mpr ⟨g, hg, y, hr, hfl, rfl⟩
  · exact convertGoalList_reject
  · intro aname st ps0 h
    obtain ⟨ps, hps, hiff⟩ := flattenPrecondList_ok aname st ps0 h
    refine ⟨ps, hps, ?_, fun p hp => (hiff p).mp hp⟩
    intro g hg y hr hfl
    exact (hiff _).mpr ⟨g, hg, y, hr, hfl, rfl⟩
  · exact flattenPrecondList_reject

theorem claim_C5_witness :
    (∃ ps, convertGoalList "eg" egProblem.goals egSt = .ok (ps, egSt) ∧
      (∀ g ∈ egProblem.goals, ∀ y, Reaches g y → y.isFluentExp = true →
        goalPredOf egSt y ∈ ps) ∧
      (∀ p ∈ ps, ∃ g ∈ egProblem.goals, ∃ y, Reaches g y ∧ y.isFluentExp = true ∧
        goalPredOf egSt y = p)) ∧
    (∃ y, Reaches (.notExp (.fluentExp "at" [.objectExp "r1" egRoom])) y ∧
      y.isFluentExp = false ∧ y.isAnd = false ∧
      convertGoalList "eg" [.notExp (.fluentExp "at" [.objectExp "r1" egRoom])] egSt =
        .error (.unsupportedProblemType (goalOperandMsg "eg" y))) ∧
    (∃ ps, flattenPrecondList "move" egMove.preconditions egSt = .ok (ps, egSt) ∧
      (∀ g ∈ egMove.preconditions, ∀ y, Reaches g y → y.isFluentExp = true →
        precondPredOf egSt y ∈ ps) ∧
      (∀ p ∈ ps, ∃ g ∈ egMove.preconditions, ∃ y, Reaches g y ∧ y.isFluentExp = true ∧
        precondPredOf egSt y = p)) ∧
    (∃ y, Reaches (.orExp [.fluentExp "at" [.paramExp "from" egRoom],
        .fluentExp "at" [.paramExp "to" egRoom]]) y ∧
      y.isFluentExp = false ∧ y.isAnd = false ∧
      flattenPrecondList "move"
        ([] ++ .orExp [.fluentExp "at" [.paramExp "from" egRoom],
          .fluentExp "at" [.paramExp "to" egRoom]] :: []) egSt =
        .error (.unsupportedProblemType (precondMsg y "move"))) := by
  refine ⟨?_, ?_, ?_, ?_⟩
  · exact claim_C5.1 "eg" egSt egProblem.goals (by decide)
  · have h := claim_C5.2.1 "eg" egSt []
      (.notExp (.fluentExp "at" [.objectExp "r1" egRoom])) [] (by decide) (by decide)
      (by decide)
    simpa using h
  · exact claim_C5.2.2.1 "move" egSt egMove.preconditions (by decide)
  · exact claim_C5.2.2.2 "move" egSt []
      (.orExp [.fluentExp "at" [.paramExp "from" egRoom],
        .fluentExp "at" [.paramExp "to" egRoom]]) [] (by decide) (by decide) (by decide)

/-- A goal-argument list with a non-object entry crashes in
`o.object()` (an assertion inside the host model), whatever the session
state at that point. -/
theorem convertGoalArgs_crash :
    ∀ (pre : List FNode), pre.all FNode.isObjectExp = true →
    ∀ (bad : FNode) (post : List FNode) (st : ConvState), bad.isObjectExp = false →
      convertGoalArgs (pre ++ bad :: post) st = .error .assertionError := by
  intro pre
  induction pre with
  | nil =>
    intro _ bad post st hbad
    have hobj : bad.object = none := by
      cases bad <;> simp [FNode.object] <;> simp [FNode.isObjectExp] at hbad
    simp [convertGoalArgs, hobj]
  | cons o pre ih =>
    intro h bad post st hbad
    simp only [List.all_cons, Bool.and_eq_true] at h
    obtain ⟨ho, hpre⟩ := h
    cases o with
    | objectExp oname oty =>
      simp [convertGoalArgs, FNode.object,
        ih hpre bad post (convertType oty st).2 hbad]
    | fluentExp n l => simp [FNode.isObjectExp] at ho
    | andExp l => simp [FNode.isObjectExp] at ho
    | paramExp a b => simp [FNode.isObjectExp] at ho
    | boolConstant b => simp [FNode.isObjectExp] at ho
    | notExp a => simp [FNode.isObjectExp] at ho
    | orExp l => simp [FNode.isObjectExp] at ho
    | equalsExp a b => simp [FNode.isObjectExp] at ho
    | intConstant v => simp [FNode.isObjectExp] at ho

/-- **C6 (counterexample).** A goal predicate with a bound parameter as
argument is *not* reported as the user-facing unsupported-operand
rejection: the translation crashes with the internal assertion of the host
model's `object()` accessor. -/
theorem claim_C6_counterexample :
    convertGoalList "eg" [.fluentExp "at" [.paramExp "x" egRoom]] egSt =
      .error .assertionError ∧
    ¬ ∃ m : String,
      convertGoalList "eg" [.fluentExp "at" [.paramExp "x" egRoom]] egSt =
        .error (.unsupportedProblemType m) := by
  have h : convertGoalList "eg" [.fluentExp "at" [.paramExp "x" egRoom]] egSt =
      .error .assertionError := by
    simp [convertGoalList, flattenGoal, convertGoalArgs, FNode.object]
  refine ⟨h, ?_⟩
  rintro ⟨m, hm⟩
  rw [h] at hm
  simp at hm

/-- **C6 (amended).** During goal translation every argument of a goal
predicate must be a concrete object; an argument that is a bound parameter
— or any other non-object expression — makes the translation fail with the
internal assertion of the host model's `object()` accessor (a programming
error, not the user-facing unsupported-operand rejection, which
`_convert_goal` raises only for a goal sub-expression that is neither a
fluent application nor a conjunction). -/
theorem claim_C6 (pname : String) (st : ConvState) (fname : String)
    (pre : List FNode) (bad : FNode) (post : List FNode)
    (hpre : pre.all FNode.isObjectExp = true)
    (hbad : bad.isObjectExp = false) :
    convertGoalList pname [.fluentExp fname (pre ++ bad :: post)] st =
      .error .assertionError := by
  simp [convertGoalList, flattenGoal, convertGoalArgs_crash pre hpre bad post st hbad]

theorem claim_C6_witness :
    convertGoalList "eg"
      [.fluentExp "at" ([.objectExp "r1" egRoom] ++ .paramExp "x" egRoom :: [])] egSt =
      .error .assertionError :=
  claim_C6 "eg" egSt "at" [.objectExp "r1" egRoom] (.paramExp "x" egRoom) []
    (by decide) (by decide)

/-! ### The type node registry (claim C9) -/

/-- The session invariant of the type registry during user-type
registration: the `_has_object_type` flag is fixed, the synthetic root is
registered exactly when the problem declares no `object` type, and every
registered node is either that root or the reference translation of a
declared type carrying its name. -/
def RegistryInv (C : List UPType) (hasObj : Bool) (st : ConvState) : Prop :=
  st.hasObjectType = hasObj ∧
  (hasObj = false → st.lookup "object" = some (.mk "object" none)) ∧
  (∀ n node, st.lookup n = some node →
    (hasObj = false ∧ n = "object" ∧ node = .mk "object" none) ∨
    (∃ u ∈ C, u.name = n ∧ node = pypOfType hasObj u))

theorem namesInjective_spec {l : List UPType} (h : namesInjective l = true) :
    ∀ a ∈ l, ∀ b ∈ l, a.name = b.name → a = b := by
  intro a ha b hb hname
  have h1 := List.all_eq_true.mp h a ha
  have h2 := List.all_eq_true.mp h1 b hb
  simp only [Bool.or_eq_true, bne_iff_ne, ne_eq, beq_iff_eq] at h2
  rcases h2 with h2 | h2
  · exact absurd hname h2
  · exact h2

theorem self_mem_selfAndAncestors (t : UPType) : t ∈ t.selfAndAncestors := by
  obtain ⟨n, fa⟩ := t
  cases fa <;> simp [UPType.selfAndAncestors]

theorem selfAndAncestors_father (n : String) (f : UPType) :
    (UPType.mk n (some f)).selfAndAncestors = .mk n (some f) :: f.selfAndAncestors := by
  simp [UPType.selfAndAncestors]

theorem mem_typeClosure_of_mem {l : List UPType} {t u : UPType}
    (ht : t ∈ l) (hu : u ∈ t.selfAndAncestors) : u ∈ typeClosure l := by
  unfold typeClosure
  exact List.mem_flatten_of_mem (List.mem_map_of_mem UPType.selfAndAncestors ht) hu

theorem convertType_mono :
    ∀ (t : UPType) (st : ConvState) (n : String) (v : PyperplanType),
      st.lookup n = some v → ((convertType t st).2).lookup n = some v
  | .mk tname tfather, st, n, v, h => by
    cases hl : st.lookup tname with
    | some w =>
      cases tfather <;> simp only [convertType, hl, Option.elim] <;> exact h
    | none =>
      have hne : n ≠ tname := fun he => by rw [he, hl] at h; cases h
      cases tfather with
      | none =>
        simp only [convertType, hl, Option.elim]
        rw [lookup_insert_ne _ _ _ _ hne]
        exact h
      | some f =>
        simp only [convertType, hl, Option.elim]
        rw [lookup_insert_ne _ _ _ _ hne]
        exact convertType_mono f st n v h
termination_by t => t.usize
decreasing_by simp [UPType.usize]

theorem convertType_pyp_memo (C : List UPType) (hasObj : Bool)
    (hinj : ∀ a ∈ C, ∀ b ∈ C, a.name = b.name → a = b)
    (hobj : hasObj = false → ∀ u ∈ C, u.name ≠ "object")
    (tname : String) (tfather : Option UPType) (st : ConvState)
    (htC : UPType.mk tname tfather ∈ C)
    (hinv : RegistryInv C hasObj st)
    (node : PyperplanType) (hl : st.lookup tname = some node) :
    convertType (.mk tname tfather) st = (pypOfType hasObj (.mk tname tfather), st) ∧
    RegistryInv C hasObj st := by
  obtain ⟨hflag, hroot, hchar⟩ := hinv
  have hmemo := convertType_lookup_hit (.mk tname tfather) st node
    (by simpa [UPType.name] using hl)
  rcases hchar tname node hl with ⟨hno, hn, _⟩ | ⟨u, huC, hun, hunode⟩
  · have hne := hobj hno _ htC
    simp only [UPType.name] at hne
    exact absurd hn hne
  · have hut : u = .mk tname tfather :=
      hinj u huC _ htC (by simpa [UPType.name] using hun)
    subst hut
    rw [hmemo]
    exact ⟨by simp [hunode], hflag, hroot, hchar⟩

theorem convertType_pyp (C : List UPType) (hasObj : Bool)
    (hinj : ∀ a ∈ C, ∀ b ∈ C, a.name = b.name → a = b)
    (hobj : hasObj = false → ∀ u ∈ C, u.name ≠ "object") :
    ∀ (t : UPType), t.selfAndAncestors ⊆ C → ∀ (st : ConvState), RegistryInv C hasObj st →
      convertType t st = (pypOfType hasObj t, (convertType t st).2) ∧
      RegistryInv C hasObj (convertType t st).2
  | .mk tname (some f), hsub, st, hinv => by
    have htC : UPType.mk tname (some f) ∈ C := hsub (self_mem_selfAndAncestors _)
    cases hl : st.lookup tname with
    | some node =>
      have h := convertType_pyp_memo C hasObj hinj hobj tname (some f) st htC hinv node hl
      refine ⟨by rw [h.1], ?_⟩
      rw [h.1]
      exact h.2
    | none =>
      obtain ⟨hflag, hroot, hchar⟩ := hinv
      have hfsub : f.selfAndAncestors ⊆ C := by
        intro u hu
        exact hsub (by rw [selfAndAncestors_father]; exact List.mem_cons_of_mem _ hu)
      obtain ⟨hfval, hfinv⟩ := convertType_pyp C hasObj hinj hobj f hfsub st
        ⟨hflag, hroot, hchar⟩
      obtain ⟨hflag2, hroot2, hchar2⟩ := hfinv
      have hres : convertType (.mk tname (some f)) st =
          (PyperplanType.mk tname (some (pypOfType hasObj f)),
           ((convertType f st).2).insert tname
             (PyperplanType.mk tname (some (pypOfType hasObj f)))) := by
        simp only [convertType, hl, Option.elim]
        rw [hfval]
      have htname_ne : hasObj = false → tname ≠ "object" := by
        intro hno
        have hne := hobj hno _ htC
        simpa [UPType.name] using hne
      rw [hres]
      refine ⟨by simp [pypOfType], ?_, ?_, ?_⟩
      · rw [insert_hasObjectType]; exact hflag2
      · intro hno
        rw [lookup_insert_ne _ _ _ _ (fun he => htname_ne hno he.symm)]
        exact hroot2 hno
      · intro m2 node2 hm
        by_cases hmn : m2 = tname
        · subst hmn
          rw [lookup_insert_self] at hm
          cases hm
          exact Or.inr ⟨.mk m2 (some f), htC, rfl, by simp [pypOfType]⟩
        · rw [lookup_insert_ne _ _ _ _ hmn] at hm
          exact hchar2 m2 node2 hm
  | .mk tname none, hsub, st, hinv => by
    have htC : UPType.mk tname none ∈ C := hsub (self_mem_selfAndAncestors _)
    cases hl : st.lookup tname with
    | some node =>
      have h := convertType_pyp_memo C hasObj hinj hobj tname none st htC hinv node hl
      refine ⟨by rw [h.1], ?_⟩
      rw [h.1]
      exact h.2
    | none =>
      obtain ⟨hflag, hroot, hchar⟩ := hinv
      have hres : convertType (.mk tname none) st =
          (PyperplanType.mk tname
             (if st.hasObjectType then none else st.lookup "object"),
           st.insert tname
             (PyperplanType.mk tname
               (if st.hasObjectType then none else st.lookup "object"))) := by
        simp only [convertType, hl, Option.elim]
      have htname_ne : hasObj = false → tname ≠ "object" := by
        intro hno
        have hne := hobj hno _ htC
        simpa [UPType.name] using hne
      have hpyp : PyperplanType.mk tname
          (if st.hasObjectType then none else st.lookup "object") =
          pypOfType hasObj (.mk tname none) := by
        rw [hflag]
        cases hasObj with
        | true => simp [pypOfType]
        | false => simp [pypOfType, hroot rfl]
      rw [hres]
      refine ⟨by rw [hpyp], ?_, ?_, ?_⟩
      · rw [insert_hasObjectType]; exact hflag
      · intro hno
        rw [lookup_insert_ne _ _ _ _ (fun he => htname_ne hno he.symm)]
        exact hroot hno
      · intro m2 node2 hm
        by_cases hmn : m2 = tname
        · subst hmn
          rw [lookup_insert_self] at hm
          cases hm
          exact Or.inr ⟨.mk m2 none, htC, rfl, by rw [hpyp]⟩
        · rw [lookup_insert_ne _ _ _ _ hmn] at hm
          exact hchar m2 node2 hm
termination_by t => t.usize
decreasing_by simp [UPType.usize]

theorem registerFold_correct (C : List UPType) (hasObj : Bool)
    (hinj : ∀ a ∈ C, ∀ b ∈ C, a.name = b.name → a = b)
    (hobj : hasObj = false → ∀ u ∈ C, u.name ≠ "object") :
    ∀ (ts : List UPType), (∀ t ∈ ts, t.selfAndAncestors ⊆ C) →
    ∀ (st : ConvState), RegistryInv C hasObj st →
      RegistryInv C hasObj (ts.foldl (fun st t => (convertType t st).2) st) ∧
      (∀ n v, st.lookup n = some v →
        (ts.foldl (fun st t => (convertType t st).2) st).lookup n = some v) ∧
      (∀ t ∈ ts, (ts.foldl (fun st t => (convertType t st).2) st).lookup t.name =
        some (pypOfType hasObj t)) := by
  intro ts
  induction ts with
  | nil => intro _ st hinv; exact ⟨hinv, fun n v h => h, by simp⟩
  | cons t ts ih =>
    intro hsub st hinv
    obtain ⟨hval, hinv1⟩ :=
      convertType_pyp C hasObj hinj hobj t (hsub t (by simp)) st hinv
    obtain ⟨hinv2, hmono2, hts⟩ := ih (fun u hu => hsub u (by simp [hu]))
      ((convertType t st).2) hinv1
    refine ⟨by simpa using hinv2, ?_, ?_⟩
    · intro n v h
      simpa using hmono2 n v (convertType_mono t st n v h)
    · intro u hu
      rcases List.mem_cons.mp hu with rfl | hus
      · have h1 : ((convertType u st).2).lookup u.name = some (pypOfType hasObj u) := by
          have := convertType_lookup_self u st
          rw [hval] at this
          simpa using this
        simpa using hmono2 u.name _ h1
      · simpa using hts u hus

/-- **C9.** Root-type attachment during type conversion: when the problem
does not declare a type named `object`, the single synthetic root
`PyperplanType('object', None)` is registered once for the session and
every declared user type without a father converts to a node whose father
is that root; when the problem does declare `object`, nothing is
pre-registered and a fatherless type converts to a node with no father; a
type with a declared father converts to a node whose father is the
(recursively converted) node of that father.  Every registered node is
either the synthetic root or the reference translation of a declared type,
and later `_convert_type` calls of the same session never replace a
registered node. -/
theorem claim_C9 (problem : UPProblem)
    (hinj : namesInjective (typeClosure problem.userTypes) = true) :
    (problem.hasType "object" = false →
      (registerUserTypes problem).lookup "object" = some (.mk "object" none) ∧
      ∀ t ∈ problem.userTypes, t.father = none →
        (registerUserTypes problem).lookup t.name =
          some (.mk t.name (some (.mk "object" none)))) ∧
    (problem.hasType "object" = true →
      ∀ t ∈ problem.userTypes, t.father = none →
        (registerUserTypes problem).lookup t.name = some (.mk t.name none)) ∧
    (∀ t ∈ problem.userTypes, ∀ f, t.father = some f →
      (registerUserTypes problem).lookup t.name =
        some (.mk t.name (some (pypOfType (problem.hasType "object") f)))) ∧
    (∀ t ∈ problem.userTypes,
      (registerUserTypes problem).lookup t.name =
        some (pypOfType (problem.hasType "object") t)) ∧
    (∀ n node, (registerUserTypes problem).lookup n = some node →
      (problem.hasType "object" = false ∧ n = "object" ∧ node = .mk "object" none) ∨
      (∃ u ∈ typeClosure problem.userTypes, u.name = n ∧
        node = pypOfType (problem.hasType "object") u)) ∧
    (∀ (t2 : UPType) (st2 : ConvState) (n : String) (node : PyperplanType),
      st2.lookup n = some node → ((convertType t2 st2).2).lookup n = some node) := by
  set C := typeClosure problem.userTypes with hC
  set hasObj := problem.hasType "object" with hHas
  have hinj2 := namesInjective_spec hinj
  have hobj : hasObj = false → ∀ u ∈ C, u.name ≠ "object" := by
    intro hno u huC he
    have : C.any (fun t => t.name == "object") = true :=
      List.any_eq_true.mpr ⟨u, huC, by simpa using he⟩
    rw [hHas] at hno
    rw [UPProblem.hasType] at hno
    rw [← hC] at hno
    rw [hno] at this
    cases this
  have hsub : ∀ t ∈ problem.userTypes, t.selfAndAncestors ⊆ C := by
    intro t ht u hu
    exact mem_typeClosure_of_mem ht hu
  have hinv0 : RegistryInv C hasObj
      ⟨if hasObj then [] else [("object", PyperplanType.mk "object" none)], hasObj⟩ := by
    cases hval : hasObj with
    | true =>
      refine ⟨rfl, by simp, ?_⟩
      intro n node h
      simp only [ConvState.lookup, lookupL_nil] at h
      cases h
    | false =>
      refine ⟨rfl, ?_, ?_⟩
      · intro _
        simp [ConvState.lookup, lookupL_cons]
      · intro n node h
        simp only [ConvState.lookup, Bool.false_eq_true, if_false] at h
        rw [lookupL_cons] at h
        by_cases hn : n = "object"
        · subst hn
          simp at h
          exact Or.inl ⟨rfl, rfl, h.symm⟩
        · have hne : ((("object", PyperplanType.mk "object" none)).1 == n) = false := by
            simpa using fun he => hn he.symm
          simp only [hne, Bool.false_eq_true, if_false, lookupL_nil] at h
          cases h
  obtain ⟨hinvF, _, hlookF⟩ := registerFold_correct C hasObj hinj2 hobj
    problem.userTypes hsub _ hinv0
  have hreg : registerUserTypes problem =
      problem.userTypes.foldl (fun st t => (convertType t st).2)
        ⟨if hasObj then [] else [("object", PyperplanType.mk "object" none)], hasObj⟩ := by
    rw [registerUserTypes]
  refine ⟨?_, ?_, ?_, ?_, ?_, convertType_mono⟩
  · intro hno
    constructor
    · obtain ⟨_, hroot, _⟩ := hinvF
      rw [hreg]
      exact hroot hno
    · intro t ht hfather
      have h := hlookF t ht
      obtain ⟨tn, tf⟩ := t
      simp only [UPType.father] at hfather
      subst hfather
      rw [hreg]
      simpa [pypOfType, hno, UPType.name] using h
  · intro hyes t ht hfather
    have h := hlookF t ht
    obtain ⟨tn, tf⟩ := t
    simp only [UPType.father] at hfather
    subst hfather
    rw [hreg]
    simpa [pypOfType, hyes, UPType.name] using h
  · intro t ht f hfather
    have h := hlookF t ht
    obtain ⟨tn, tf⟩ := t
    simp only [UPType.father] at hfather
    subst hfather
    rw [hreg]
    simpa [pypOfType, UPType.name] using h
  · intro t ht
    rw [hreg]
    exact hlookF t ht
  · intro n node h
    obtain ⟨_, _, hchar⟩ := hinvF
    rw [hreg] at h
    exact hchar n node h

theorem claim_C9_witness :
    (registerUserTypes egProblem).lookup "object" = some (.mk "object" none) ∧
    (registerUserTypes egProblem).lookup "room" =
      some (.mk "room" (some (.mk "object" none))) := by
  have h := claim_C9 egProblem (by decide)
  have h1 := (h.1 (by decide)).1
  have h2 := (h.1 (by decide)).2 egRoom (by simp [egProblem]) (by decide)
  exact ⟨h1, by simpa [egRoom, UPType.name] using h2⟩

end UpPyperplan
